import Mathlib

/-!
# libten task runtime: scheduler run queue, task swap-in, qutex, rendez, recvall

A shallow embedding of `src/task/task.cc` and `src/include/ten/net.hh`.

Pointers (`task *`, `proc *`, `timeout_t *`) are natural-number addresses, a
nullable `task *` is an `Option Nat`.  Thread-level mutexes are held for the
whole of each critical section and are therefore not part of the state.  A
suspension (`task::swap`) splits an operation in two: what runs before the
coroutine switch and what runs after the task is resumed; the state found on
resumption and the way the swap-in ends are supplied by an environment function.
-/

namespace ten

/-! ## Failures and outcomes -/

/-- The value of a non-null `std::exception_ptr` stored in a timeout.  The one installed
under `src/` is `deadline_reached` (by `deadline::deadline`); `add_timeout` accepts any
other exception type, told apart here by a tag. -/
inductive exception_ptr where
  | deadline_reached
  | other (tag : Nat)
deriving DecidableEq, Repr

/-- A failure unwinding a task's stack: `task_interrupted` is the `throw task_interrupted()`
of `task::swap`, `payload e` the `std::rethrow_exception` of a timeout's exception, and
`system_error` what `std::unique_lock` throws when unlocked while not owned. -/
inductive failure where
  | task_interrupted
  | payload (e : exception_ptr)
  | system_error
deriving DecidableEq, Repr

/-- How a call ends: it returns, it propagates a failure, or a `CHECK` fails and the
process is aborted. -/
inductive outcome where
  | returned
  | raised (f : failure)
  | check_failed
deriving DecidableEq, Repr

/-! ## Scheduler run queue (`task::ready`) -/

/-- The part of a `proc` that `task::ready` touches: its address, its run queue and
the number of wake-ups delivered to it. -/
structure proc where
  addr : Nat
  runqueue : List Nat
  wakeups : Nat
deriving DecidableEq, Repr

/-- An entry of `task::timeouts`: its address, the deadline `when` and the stored
`exception` (`none` for a null `exception_ptr`). -/
structure timeout_t where
  addr : Nat
  when : Nat
  exception : Option exception_ptr
deriving DecidableEq, Repr

/-- The fields of `task` read or written by the embedded functions; `addr` is `this`. -/
structure task where
  addr : Nat
  exiting : Bool
  canceled : Bool
  unwinding : Bool
  timeouts : List timeout_t
  cproc : Nat
deriving DecidableEq, Repr

/-- Modelled from the spec: `proc::wakeupandunlock` is not under `src/`; the spec says the
cross-thread enqueue "writes one byte to its wake pipe to unblock the poller", counted here. -/
def proc.wakeupandunlock (p : proc) : proc :=
  ⟨p.addr, p.runqueue, p.wakeups + 1⟩

/-- The function `task::ready` (task.cc:125-139); `p` is the proc `cproc` points to and
`this_proc` the address held by `_this_proc`. -/
def task.ready (t : task) (this_proc : Nat) (p : proc) : proc :=
  if t.exiting then p
  else if t.addr ∈ p.runqueue then p
  else
    let p1 : proc := ⟨p.addr, p.runqueue ++ [t.addr], p.wakeups⟩
    if p.addr ≠ this_proc then p1.wakeupandunlock else p1

/-- A run of `ready` calls, one per task of `ts` in order, all on the same proc. -/
def ready_all (this_proc : Nat) (p : proc) (ts : List task) : proc :=
  ts.foldl (fun acc t => t.ready this_proc acc) p

/-! ## Swap-in (`task::swap`) -/

/-- The scheduler's set of tasks that own a timeout (`timeout_tasks`). -/
structure sched where
  timeout_tasks : List Nat
deriving DecidableEq, Repr

/-- Modelled from the spec: `remove_timeout_task` is not under `src/`; the spec says that when
a task's last timeout goes the task is deregistered from the timeout-owning set. -/
def sched.remove_timeout_task (s : sched) (t : Nat) : sched :=
  ⟨s.timeout_tasks.filter (fun x => x ≠ t)⟩

/-- The loop `while (!timeouts.empty())` of `task::swap` (task.cc:193-209) run by the task at
address `self` with `procnow() = now`: the timeouts left, the scheduler and how it ends. -/
def task.drain (self now : Nat) : List timeout_t → sched → List timeout_t × sched × outcome
  | [], s => ([], s, outcome.returned)
  | tm :: rest, s =>
    if tm.when ≤ now then
      let s1 := if rest.isEmpty then s.remove_timeout_task self else s
      match tm.exception with
      | some e => (rest, s1, outcome.raised (failure.payload e))
      | none => task.drain self now rest s1
    else (tm :: rest, s, outcome.returned)

/-- What `task::swap` leaves behind: the task, its scheduler and how the call ends. -/
structure swap_result where
  t : task
  s : sched
  out : outcome
deriving DecidableEq, Repr

/-- The function `task::swap` (task.cc:183-210) from the moment the task is swapped back in,
with `procnow() = now`. -/
def task.swap (t : task) (s : sched) (now : Nat) : swap_result :=
  if t.canceled && !t.unwinding then
    ⟨⟨t.addr, t.exiting, t.canceled, true, t.timeouts, t.cproc⟩, s,
      outcome.raised failure.task_interrupted⟩
  else
    let d := task.drain t.addr now t.timeouts s
    ⟨⟨t.addr, t.exiting, t.canceled, t.unwinding, d.1, t.cproc⟩, d.2.1, d.2.2⟩

/-! ## Qutex -/

/-- The state of a `qutex`: `owner` (`none` for null) and the `waiting` deque. -/
structure qutex where
  owner : Option Nat
  waiting : List Nat
deriving DecidableEq, Repr

/-- The critical section of `qutex::lock` (task.cc:215-224) for the calling task `t`: the
new state, and whether the caller goes on to `t->swap()`. -/
def qutex.lock_enter (q : qutex) (t : Nat) : qutex × Bool :=
  if q.owner = none ∨ q.owner = some t then (⟨some t, q.waiting⟩, false)
  else (⟨q.owner, q.waiting ++ [t]⟩, true)

/-- The function `qutex::internal_unlock` (task.cc:256-279) run by task `t`: the new state
and the task passed to `ready`, if any. -/
def qutex.internal_unlock (q : qutex) (t : Nat) : qutex × Option Nat :=
  if q.owner = some t then
    match q.waiting with
    | w :: rest => (⟨some w, rest⟩, some w)
    | [] => (⟨none, []⟩, none)
  else (⟨q.owner, q.waiting.erase t⟩, none)

/-- The function `qutex::unlock` (task.cc:251-254). -/
def qutex.unlock (q : qutex) (t : Nat) : qutex × Option Nat :=
  q.internal_unlock t

/-- What a `qutex::lock` call leaves behind: the qutex, the rest of the shared state `w`
(which other tasks may change while the caller is suspended), how the call ends, the task
passed to `ready` and whether the caller was suspended. -/
structure lock_result (W : Type) where
  q : qutex
  w : W
  out : outcome
  readied : Option Nat
  suspended : Bool

/-- The part of `qutex::lock` after `t->swap()` (task.cc:226-235): `res` is `none` when the
swap-in returns and `some f` when it raises `f`; `q` is the state found on resumption. -/
def qutex.lock_resume {W : Type} (q : qutex) (w : W) (t : Nat) (res : Option failure) :
    lock_result W :=
  match res with
  | none =>
    if q.owner = some t then ⟨q, w, outcome.returned, none, true⟩
    else ⟨q, w, outcome.check_failed, none, true⟩
  | some f =>
    let u := q.internal_unlock t
    ⟨u.1, w, outcome.raised f, u.2, true⟩

/-- The function `qutex::lock` (task.cc:212-236) called by task `t`.  When the caller has to
wait, `env` maps the shared state at the suspension to the shared state at the resumption
and to the way `t->swap()` ends. -/
def qutex.lock {W : Type} (q : qutex) (w : W) (t : Nat)
    (env : qutex → W → qutex × W × Option failure) : lock_result W :=
  let e := q.lock_enter t
  if e.2 then
    let r := env e.1 w
    qutex.lock_resume r.1 r.2.1 t r.2.2
  else ⟨e.1, w, outcome.returned, none, false⟩

/-- What a `qutex::try_lock` call leaves behind; it has no `swap` on any path. -/
structure try_lock_result where
  q : qutex
  ret : Bool
  suspended : Bool
deriving DecidableEq, Repr

/-- The function `qutex::try_lock` (task.cc:238-249) called by task `t`; `owns_lock` is
whether `std::try_to_lock` got the thread mutex. -/
def qutex.try_lock (q : qutex) (t : Nat) (owns_lock : Bool) : try_lock_result :=
  if owns_lock then
    if q.owner = none then ⟨⟨some t, q.waiting⟩, true, false⟩
    else ⟨q, false, false⟩
  else ⟨q, false, false⟩

/-- The tasks of `ts` call `lock()` one after the other; for each one, whether it had to wait. -/
def qutex.lock_all (q : qutex) : List Nat → qutex × List Bool
  | [] => (q, [])
  | t :: ts =>
    let e := q.lock_enter t
    let r := qutex.lock_all e.1 ts
    (r.1, e.2 :: r.2)

/-- One `unlock()` as seen from outside: the head of `waiting` before the call, the owner
after it and the task passed to `ready`. -/
structure handoff where
  head : Option Nat
  owner : Option Nat
  readied : Option Nat
deriving DecidableEq, Repr

/-- Up to `n` successive `unlock()` calls, each made by the task that owns the qutex at that
moment; the run ends early once nobody owns it. -/
def qutex.unlock_chain : Nat → qutex → List handoff × qutex
  | 0, q => ([], q)
  | n + 1, q =>
    match q.owner with
    | none => ([], q)
    | some o =>
      let u := q.unlock o
      let r := qutex.unlock_chain n u.1
      (⟨q.waiting.head?, u.1.owner, u.2⟩ :: r.1, r.2)

/-- The calls that change a qutex: `lock()` up to its suspension, `try_lock()`, and
`internal_unlock`, which is both `unlock()` and the aborted-wait path of `lock()`. -/
inductive qutex.Reachable : qutex → Prop where
  | init : qutex.Reachable ⟨none, []⟩
  | lock (q : qutex) (t : Nat) : qutex.Reachable q → qutex.Reachable (q.lock_enter t).1
  | try_lock (q : qutex) (t : Nat) (b : Bool) :
      qutex.Reachable q → qutex.Reachable (q.try_lock t b).q
  | unlock (q : qutex) (t : Nat) :
      qutex.Reachable q → qutex.Reachable (q.internal_unlock t).1

/-! ## Rendez -/

/-- The state of a `rendez`: the `waiting` deque. -/
structure rendez where
  waiting : List Nat
deriving DecidableEq, Repr

/-- What the other tasks do while the caller of `rendez::sleep` is suspended: from the qutex
and the rendez at the suspension to both at the resumption, and how `t->swap()` ends there
(`none`: it returns, `some f`: it raises `f`). -/
abbrev sleep_env := qutex → rendez → qutex × rendez × Option failure

/-- What a `rendez::sleep` call leaves behind: the qutex and whether the `unique_lock` owns
it, the rendez, how the call ends and the tasks passed to `ready`, in order. -/
structure sleep_result where
  q : qutex
  owns : Bool
  rz : rendez
  out : outcome
  readied : List Nat
deriving DecidableEq, Repr

/-- The part of `rendez::sleep` before `t->swap()` (task.cc:301-308), entered with the
`unique_lock` owning the qutex: `lk.unlock()`, then the guarded `push_back`. -/
def rendez.sleep_enter (rz : rendez) (q : qutex) (t : Nat) : qutex × rendez × Option Nat :=
  let u := q.unlock t
  let rz1 : rendez := if t ∈ rz.waiting then rz else ⟨rz.waiting ++ [t]⟩
  (u.1, rz1, u.2)

/-- The handler `catch (...)` of `rendez::sleep` (task.cc:312-320) for the failure `f`:
erase `t` from `waiting`, `lk.lock()`, `throw;`.  A failure raised by `lk.lock()` leaves the
handler in place of `f`. -/
def rendez.sleep_catch (rz : rendez) (q : qutex) (t : Nat) (f : failure)
    (readied : List Nat) (env_catch : sleep_env) : sleep_result :=
  let l := q.lock (⟨rz.waiting.erase t⟩ : rendez) t env_catch
  match l.out with
  | outcome.returned => ⟨l.q, true, l.w, outcome.raised f, readied ++ l.readied.toList⟩
  | outcome.raised g => ⟨l.q, false, l.w, outcome.raised g, readied ++ l.readied.toList⟩
  | outcome.check_failed => ⟨l.q, false, l.w, outcome.check_failed, readied ++ l.readied.toList⟩

/-- The function `rendez::sleep` (task.cc:298-321) called by task `t` with the
`std::unique_lock<qutex>` made of `q` and `owns`.  There are three places where the caller
can be suspended, each with its environment: `t->swap()` (`env_swap`), the `lk.lock()` of
the `try` block (`env_try`) and the `lk.lock()` of the handler (`env_catch`). -/
def rendez.sleep (rz : rendez) (q : qutex) (owns : Bool) (t : Nat)
    (env_swap env_try env_catch : sleep_env) : sleep_result :=
  if owns then
    let e := rz.sleep_enter q t
    let r := env_swap e.1 e.2.1
    match r.2.2 with
    | none =>
      let l := r.1.lock r.2.1 t env_try
      match l.out with
      | outcome.returned => ⟨l.q, true, l.w, outcome.returned, e.2.2.toList ++ l.readied.toList⟩
      | outcome.raised g =>
        rendez.sleep_catch l.w l.q t g (e.2.2.toList ++ l.readied.toList) env_catch
      | outcome.check_failed =>
        ⟨l.q, false, l.w, outcome.check_failed, e.2.2.toList ++ l.readied.toList⟩
    | some f => rendez.sleep_catch r.2.1 r.1 t f e.2.2.toList env_catch
  else ⟨q, false, rz, outcome.raised failure.system_error, []⟩

/-- The function `rendez::wakeup` (task.cc:323-331): the new state and the task passed to
`ready`, if any. -/
def rendez.wakeup (rz : rendez) : rendez × Option Nat :=
  match rz.waiting with
  | t :: rest => (⟨rest⟩, some t)
  | [] => (rz, none)

/-! ## `sockbase::recvall` -/

/-- The value of a `size_t` after conversion from an integer: reduction modulo `2^64`. -/
def to_size_t (i : Int) : Nat :=
  (i % 2 ^ 64).toNat

/-- The value of an `ssize_t` after conversion from an integer: the two's complement
reading of its 64 low bits. -/
def to_ssize_t (i : Int) : Int :=
  if i % 2 ^ 64 < 2 ^ 63 then i % 2 ^ 64 else i % 2 ^ 64 - 2 ^ 64

/-- One call `this->recv(&buf[offset], len, 0, timeout_ms)` and its result `nr`. -/
structure recv_call where
  offset : Nat
  len : Nat
  nr : Int
deriving DecidableEq, Repr

/-- The loop of `sockbase::recvall` (net.hh:117-125) for the variables `pos` and `left`, after
`n` earlier calls of `recv`.  The socket is `recv n offset size`: what the call number `n`
returns when asked for `size` bytes at `offset`.  `fuel` bounds the number of times the
loop condition is evaluated.  Result: the final `pos` and the calls made, in order. -/
def sockbase.recvall_loop (recv : Nat → Nat → Nat → Int) (len : Nat) :
    Nat → Nat → Nat → Int → Option (Nat × List recv_call)
  | 0, _, _, _ => none
  | fuel + 1, n, pos, left =>
    if pos ≠ len then
      let nr := recv n pos (to_size_t left)
      if nr > 0 then
        match sockbase.recvall_loop recv len fuel (n + 1) (to_size_t (pos + nr))
            (to_ssize_t (left - nr)) with
        | some (p, calls) => some (p, ⟨pos, to_size_t left, nr⟩ :: calls)
        | none => none
      else some (pos, [⟨pos, to_size_t left, nr⟩])
    else some (pos, [])

/-- The function `sockbase::recvall` (net.hh:114-127): the value returned (an `ssize_t`) and
the `recv` calls made; `none` when `fuel` does not suffice. -/
def sockbase.recvall (recv : Nat → Nat → Nat → Int) (len : Nat) (fuel : Nat) :
    Option (Int × List recv_call) :=
  (sockbase.recvall_loop recv len fuel 0 0 (to_ssize_t len)).map
    fun r => (to_ssize_t r.1, r.2)

/-! ## Timeout removal (`task::remove_timeout`) -/

/-- The function `task::remove_timeout` (task.cc:171-181) for the handle at address `h`:
`std::find` by pointer value and `erase` of the entry found, then the test
`timeouts.empty()` that guards the call of `remove_timeout_task`. -/
def task.remove_timeout (t : task) (s : sched) (h : Nat) : task × sched :=
  let ts := t.timeouts.eraseP fun x => x.addr == h
  (⟨t.addr, t.exiting, t.canceled, t.unwinding, ts, t.cproc⟩,
    if ts.isEmpty then s.remove_timeout_task t.addr else s)

/-! ## Qutex invariant -/

/-- The predicate on a qutex state: a null `owner` implies an empty `waiting`, the owner is
not in `waiting`, and `waiting` holds no task twice. -/
def qutex.inv (q : qutex) : Prop :=
  (q.owner = none → q.waiting = []) ∧ (∀ o, q.owner = some o → o ∉ q.waiting) ∧
    q.waiting.Nodup

/-! ## Netsock server accept loop (`netsock_server::accept_loop`) -/

/-- The value of `errno` after a failed `accept`, as far as the `switch` tells them apart. -/
inductive accept_errno where
  | ENFILE
  | EMFILE
  | ENOBUFS
  | ENOMEM
  | other (e : Nat)
deriving DecidableEq, Repr

/-- How `task::spawn` ends inside the loop: the client task is spawned, `std::bad_alloc` is
thrown, or another exception is thrown. -/
inductive spawn_result where
  | spawned
  | bad_alloc
  | other_exception
deriving DecidableEq, Repr

/-- What one turn of the loop meets: the value `fd` returned by `_sock.accept`, `errno`
(read when `fd == -1`) and the way `task::spawn` ends (reached when `fd > 2`). -/
structure accept_turn where
  fd : Int
  errno : accept_errno
  spawn : spawn_result
deriving DecidableEq, Repr

/-- What one turn of the loop does after `accept`. -/
inductive loop_action where
  | sleep_for (delay : Nat)
  | yield
  | throw_errorx
  | rethrow
deriving DecidableEq, Repr

/-- One turn of the loop: the descriptor closed, if any, and the action taken. -/
structure turn_result where
  closed : Option Int
  act : loop_action
deriving DecidableEq, Repr

/-- The body of `for (;;)` in `netsock_server::accept_loop` (net.hh:263-309) for one turn.
The backoff object is a state `bo` of any type with its `next_delay`, which returns the delay
in milliseconds and the new state. -/
def accept_loop_turn {B : Type} (next_delay : B → Nat × B) (bo : B) (a : accept_turn) :
    turn_result × B :=
  if a.fd = -1 then
    match a.errno with
    | accept_errno.other _ => (⟨none, loop_action.yield⟩, bo)
    | _ => (⟨none, loop_action.sleep_for (next_delay bo).1⟩, (next_delay bo).2)
  else if a.fd ≤ 2 then (⟨some a.fd, loop_action.throw_errorx⟩, bo)
  else
    match a.spawn with
    | spawn_result.spawned => (⟨none, loop_action.yield⟩, bo)
    | spawn_result.bad_alloc =>
      (⟨some a.fd, loop_action.sleep_for (next_delay bo).1⟩, (next_delay bo).2)
    | spawn_result.other_exception => (⟨some a.fd, loop_action.rethrow⟩, bo)

/-- The loop of `netsock_server::accept_loop` (net.hh:258-311) over the turns `run`, entered
with the backoff state `bo`; it ends with the turn that throws, if there is one. -/
def accept_loop_from {B : Type} (next_delay : B → Nat × B) : B → List accept_turn →
    List turn_result
  | _, [] => []
  | bo, a :: rest =>
    let r := accept_loop_turn next_delay bo a
    match r.1.act with
    | loop_action.throw_errorx => [r.1]
    | loop_action.rethrow => [r.1]
    | _ => r.1 :: accept_loop_from next_delay r.2 rest

/-- Modelled from the spec: `ten/backoff.hh` is not under `src/`.  The spec describes the
delay as "exponential in [100 ms, 500 ms]": the object keeps the two bounds and the number
of delays handed out so far. -/
structure backoff where
  min_delay : Nat
  max_delay : Nat
  tries : Nat
deriving DecidableEq, Repr

/-- Modelled from the spec: `make_backoff(min, max)` of `ten/backoff.hh`, a fresh backoff
object between the two bounds. -/
def make_backoff (min_delay max_delay : Nat) : backoff :=
  ⟨min_delay, max_delay, 0⟩

/-- Modelled from the spec: `backoff::next_delay` of `ten/backoff.hh`; the delay doubles
with every call, from `min_delay` up to the cap `max_delay`. -/
def backoff.next_delay (b : backoff) : Nat × backoff :=
  (min b.max_delay (b.min_delay * 2 ^ b.tries), ⟨b.min_delay, b.max_delay, b.tries + 1⟩)

/-- The function `netsock_server::accept_loop` (net.hh:258-311) with
`bo = make_backoff(milliseconds{100}, milliseconds{500})`. -/
def netsock_server.accept_loop (run : List accept_turn) : List turn_result :=
  accept_loop_from backoff.next_delay (make_backoff 100 500) run

/-- Whether a turn is a resource-exhaustion failure: `accept` fails with `ENFILE`, `EMFILE`,
`ENOBUFS` or `ENOMEM`, or the spawn of the client task runs out of memory. -/
def accept_turn.exhausted (a : accept_turn) : Bool :=
  if a.fd = -1 then
    match a.errno with
    | accept_errno.other _ => false
    | _ => true
  else if a.fd ≤ 2 then false
  else a.spawn == spawn_result.bad_alloc

/-- Whether a turn leaves the loop by an exception. -/
def accept_turn.throws (a : accept_turn) : Bool :=
  if a.fd = -1 then false
  else if a.fd ≤ 2 then true
  else a.spawn == spawn_result.other_exception

/-- The delays slept in a run of the loop, in order. -/
def sleeps : List turn_result → List Nat
  | [] => []
  | r :: rest =>
    match r.act with
    | loop_action.sleep_for d => d :: sleeps rest
    | _ => sleeps rest

/-- The first `k` delays that a backoff object in state `bo` hands out. -/
def backoff_delays {B : Type} (next_delay : B → Nat × B) : B → Nat → List Nat
  | _, 0 => []
  | bo, k + 1 => (next_delay bo).1 :: backoff_delays next_delay (next_delay bo).2 k

end ten

/-! ## The runner-based scheduler (`src/task.cc`, `src/runner.hh`)

These two files hold the classes `task` and `runner` of the global namespace.  The flag
masks `_TASK_SLEEP` and `_TASK_EXIT` come from `task.hh`, which is not under `src/`; they are
parameters. -/

namespace legacy

/-- The fields of `task::impl` used below: an identity for the shared `impl` and the
`flags` word. -/
structure task where
  id : Nat
  flags : Nat
deriving DecidableEq, Repr

/-- The function `task::clear_flag` (task.cc:174): `m->flags ^= f`. -/
def task.clear_flag (t : task) (f : Nat) : task :=
  ⟨t.id, t.flags ^^^ f⟩

/-- The function `task::set_flag` (task.cc:175): `m->flags |= f`. -/
def task.set_flag (t : task) (f : Nat) : task :=
  ⟨t.id, t.flags ||| f⟩

/-- The function `task::test_flag_set` (task.cc:176): `m->flags & f` converted to `bool`. -/
def task.test_flag_set (t : task) (f : Nat) : Bool :=
  t.flags &&& f != 0

/-- The fields of `runner` used below: `asleep`, the run queue `runq` (tasks by identity)
and the number of `cond.signal()` calls. -/
structure runner where
  asleep : Bool
  runq : List Nat
  signals : Nat
deriving DecidableEq, Repr

/-- The function `runner::wakeup_nolock` (runner.hh:117-122). -/
def runner.wakeup_nolock (r : runner) : runner :=
  if r.asleep then ⟨false, r.runq, r.signals + 1⟩ else r

/-- The function `runner::add_to_runqueue_if_asleep` (runner.hh:98-107), with the mask
`_TASK_SLEEP` as `sleep_mask`: the value returned, the runner and the task afterwards. -/
def runner.add_to_runqueue_if_asleep (r : runner) (t : task) (sleep_mask : Nat) :
    Bool × runner × task :=
  if r.asleep then
    let t1 := t.clear_flag sleep_mask
    let r1 : runner := ⟨r.asleep, r.runq ++ [t1.id], r.signals⟩
    (true, r1.wakeup_nolock, t1)
  else (false, r, t)

/-- How the task body `t.m->f()` ends: it returns, or it throws `channel_closed_error`, an
exception derived from `std::exception`, or an exception of another type. -/
inductive body_outcome where
  | returned
  | channel_closed_error
  | std_exception
  | other_exception
deriving DecidableEq, Repr

/-- How `task::start` ends: the final `runner::swap_to_scheduler()`, the call of `abort()`,
or `std::terminate()` for an exception that no handler of the entry function catches. -/
inductive start_end where
  | swap_to_scheduler
  | abort
  | terminate
deriving DecidableEq, Repr

/-- Whether the process is brought down: `abort()`, or `std::terminate()`, whose handler
calls `abort()`. -/
def start_end.process_aborted : start_end → Bool
  | start_end.swap_to_scheduler => false
  | start_end.abort => true
  | start_end.terminate => true

/-- The function `task::start` (task.cc:77-97) for a body that ends as `body`, with the mask
`_TASK_EXIT` as `exit_mask`: the task afterwards and the way the wrapper ends. -/
def task.start (t : task) (body : body_outcome) (exit_mask : Nat) : task × start_end :=
  match body with
  | body_outcome.returned => (⟨t.id, t.flags ||| exit_mask⟩, start_end.swap_to_scheduler)
  | body_outcome.channel_closed_error =>
    (⟨t.id, t.flags ||| exit_mask⟩, start_end.swap_to_scheduler)
  | body_outcome.std_exception => (t, start_end.abort)
  | body_outcome.other_exception => (t, start_end.terminate)

end legacy

/-! # Theorems -/

namespace ten

/-! ## Run queue: lemmas -/

theorem ready_runqueue_of_mem (t : task) (this_proc : Nat) (p : proc)
    (h : t.addr ∈ p.runqueue) : t.ready this_proc p = p := by
  unfold task.ready
  split
  · rfl
  · simp [h]

theorem ready_runqueue_of_not_mem (t : task) (this_proc : Nat) (p : proc)
    (hx : t.exiting = false) (h : t.addr ∉ p.runqueue) :
    (t.ready this_proc p).runqueue = p.runqueue ++ [t.addr] := by
  unfold task.ready
  rw [if_neg (by simp [hx]), if_neg h]
  by_cases hp : p.addr = this_proc <;> simp [hp, proc.wakeupandunlock]

theorem ready_runqueue_eq (t : task) (this_proc : Nat) (p : proc) (hx : t.exiting = false) :
    (t.ready this_proc p).runqueue =
      if t.addr ∈ p.runqueue then p.runqueue else p.runqueue ++ [t.addr] := by
  by_cases h : t.addr ∈ p.runqueue
  · rw [if_pos h, ready_runqueue_of_mem t this_proc p h]
  · rw [if_neg h, ready_runqueue_of_not_mem t this_proc p hx h]

theorem ready_nodup (t : task) (this_proc : Nat) (p : proc) (hx : t.exiting = false)
    (hq : p.runqueue.Nodup) : (t.ready this_proc p).runqueue.Nodup := by
  rw [ready_runqueue_eq t this_proc p hx]
  split
  · exact hq
  · rename_i h
    exact List.Nodup.append hq (List.nodup_singleton _) (by simpa using h)

theorem ready_all_nodup (this_proc : Nat) (ts : List task) :
    ∀ p : proc, (∀ x ∈ ts, x.exiting = false) → p.runqueue.Nodup →
      (ready_all this_proc p ts).runqueue.Nodup := by
  induction ts with
  | nil => intro p _ hq; exact hq
  | cons c cs ih =>
    intro p hx hq
    have hc : c.exiting = false := hx c (List.mem_cons_self _ _)
    exact ih (c.ready this_proc p) (fun x hm => hx x (List.mem_cons_of_mem _ hm))
      (ready_nodup c this_proc p hc hq)

theorem ready_all_extends (this_proc : Nat) (ts : List task) :
    ∀ p : proc, (∀ x ∈ ts, x.exiting = false) →
      ∃ ext, (ready_all this_proc p ts).runqueue = p.runqueue ++ ext := by
  induction ts with
  | nil => intro p _; exact ⟨[], by simp [ready_all]⟩
  | cons c cs ih =>
    intro p hx
    have hc : c.exiting = false := hx c (List.mem_cons_self _ _)
    obtain ⟨ext, he⟩ := ih (c.ready this_proc p) (fun x hm => hx x (List.mem_cons_of_mem _ hm))
    have hs : ready_all this_proc p (c :: cs) = ready_all this_proc (c.ready this_proc p) cs := rfl
    rw [hs, he, ready_runqueue_eq c this_proc p hc]
    split
    · exact ⟨ext, rfl⟩
    · exact ⟨[c.addr] ++ ext, by simp⟩

theorem ready_all_mem (this_proc : Nat) (ts : List task) :
    ∀ p : proc, (∀ x ∈ ts, x.exiting = false) → ∀ b ∈ ts,
      b.addr ∈ (ready_all this_proc p ts).runqueue := by
  induction ts with
  | nil => intro p _ b hb; cases hb
  | cons c cs ih =>
    intro p hx b hb
    have hc : c.exiting = false := hx c (List.mem_cons_self _ _)
    have hcs : ∀ x ∈ cs, x.exiting = false := fun x hm => hx x (List.mem_cons_of_mem _ hm)
    have hs : ready_all this_proc p (c :: cs) = ready_all this_proc (c.ready this_proc p) cs := rfl
    rw [hs]
    rcases List.mem_cons.mp hb with rfl | hb
    · obtain ⟨ext, he⟩ := ready_all_extends this_proc cs (b.ready this_proc p) hcs
      rw [he, ready_runqueue_eq b this_proc p hc]
      split <;> simp_all
    · exact ih _ hcs b hb

theorem ready_all_not_mem (this_proc : Nat) (ts : List task) (a : Nat) :
    ∀ p : proc, (∀ x ∈ ts, x.exiting = false) → (∀ x ∈ ts, x.addr ≠ a) → a ∉ p.runqueue →
      a ∉ (ready_all this_proc p ts).runqueue := by
  induction ts with
  | nil => intro p _ _ h; exact h
  | cons c cs ih =>
    intro p hx hne h
    have hc : c.exiting = false := hx c (List.mem_cons_self _ _)
    have hcs : ∀ x ∈ cs, x.exiting = false := fun x hm => hx x (List.mem_cons_of_mem _ hm)
    refine ih (c.ready this_proc p) hcs (fun x hm => hne x (List.mem_cons_of_mem _ hm)) ?_
    rw [ready_runqueue_eq c this_proc p hc]
    have : c.addr ≠ a := hne c (List.mem_cons_self _ _)
    split
    · exact h
    · simp [h, this.symm]

/-- C1: `ready` on a non-exiting task keeps a duplicate-free run queue duplicate-free; a task
already queued leaves the proc as it is, an absent task is appended at the tail.  Hence, over
any run of `ready` calls on non-exiting tasks, a task first readied before another one (both
absent at the start) stands before it in the queue. -/
theorem task_ready_no_duplicates_fifo (t : task) (this_proc : Nat) (p : proc)
    (hq : p.runqueue.Nodup) (hx : t.exiting = false) :
    (t.ready this_proc p).runqueue.Nodup ∧
    (t.addr ∈ p.runqueue → t.ready this_proc p = p) ∧
    (t.addr ∉ p.runqueue → (t.ready this_proc p).runqueue = p.runqueue ++ [t.addr]) ∧
    (∀ (l1 l2 : List task) (a b : task),
      (∀ x ∈ l1 ++ a :: l2, x.exiting = false) →
      (∀ x ∈ l1, x.addr ≠ a.addr ∧ x.addr ≠ b.addr) →
      b ∈ l2 → a.addr ≠ b.addr → a.addr ∉ p.runqueue → b.addr ∉ p.runqueue →
      (ready_all this_proc p (l1 ++ a :: l2)).runqueue.Nodup ∧
      List.Sublist [a.addr, b.addr] (ready_all this_proc p (l1 ++ a :: l2)).runqueue) := by
  refine ⟨ready_nodup t this_proc p hx hq, ready_runqueue_of_mem t this_proc p,
    ready_runqueue_of_not_mem t this_proc p hx, ?_⟩
  intro l1 l2 a b hex hl1 hb hab ha hbq
  refine ⟨ready_all_nodup this_proc _ p hex hq, ?_⟩
  have hx1 : ∀ x ∈ l1, x.exiting = false := fun x hm => hex x (by simp [hm])
  have hxa : a.exiting = false := hex a (by simp)
  have hx2 : ∀ x ∈ l2, x.exiting = false := fun x hm => hex x (by simp [hm])
  have hs : ready_all this_proc p (l1 ++ a :: l2) =
      ready_all this_proc (a.ready this_proc (ready_all this_proc p l1)) l2 := by
    simp [ready_all, List.foldl_append]
  have ha1 : a.addr ∉ (ready_all this_proc p l1).runqueue :=
    ready_all_not_mem this_proc l1 a.addr p hx1 (fun x hm => (hl1 x hm).1) ha
  have hb1 : b.addr ∉ (ready_all this_proc p l1).runqueue :=
    ready_all_not_mem this_proc l1 b.addr p hx1 (fun x hm => (hl1 x hm).2) hbq
  obtain ⟨ext, he⟩ := ready_all_extends this_proc l2 (a.ready this_proc (ready_all this_proc p l1)) hx2
  have hm := ready_all_mem this_proc l2 (a.ready this_proc (ready_all this_proc p l1)) hx2 b hb
  rw [hs, he]
  rw [he, ready_runqueue_of_not_mem a this_proc _ hxa ha1] at hm
  rw [ready_runqueue_of_not_mem a this_proc _ hxa ha1]
  have hbe : b.addr ∈ ext := by
    simp only [List.mem_append, List.mem_singleton] at hm
    rcases hm with (h | h) | h
    · exact absurd h hb1
    · exact absurd h.symm hab
    · exact h
  rw [List.append_assoc]
  refine List.Sublist.trans ?_ (List.sublist_append_right _ _)
  exact List.Sublist.cons₂ _ (List.singleton_sublist.mpr hbe)

theorem task_ready_no_duplicates_fifo_witness :
    (task.ready ⟨3, false, false, false, [], 0⟩ 0 ⟨0, [1, 2], 0⟩).runqueue = [1, 2, 3] ∧
    (task.ready ⟨2, false, false, false, [], 0⟩ 0 ⟨0, [1, 2], 0⟩) = ⟨0, [1, 2], 0⟩ :=
  have h := task_ready_no_duplicates_fifo ⟨3, false, false, false, [], 0⟩ 0 ⟨0, [1, 2], 0⟩
    (by decide) rfl
  have h2 := task_ready_no_duplicates_fifo ⟨2, false, false, false, [], 0⟩ 0 ⟨0, [1, 2], 0⟩
    (by decide) rfl
  ⟨h.2.2.1 (by decide), h2.2.1 (by decide)⟩


/-! ## Qutex: hand-over of ownership -/

theorem lock_enter_held (o t : Nat) (w : List Nat) (h : o ≠ t) :
    qutex.lock_enter ⟨some o, w⟩ t = (⟨some o, w ++ [t]⟩, true) := by
  simp [qutex.lock_enter, h]

theorem lock_all_held (o : Nat) (ts : List Nat) :
    ∀ w : List Nat, o ∉ ts →
      qutex.lock_all ⟨some o, w⟩ ts = (⟨some o, w ++ ts⟩, List.replicate ts.length true) := by
  induction ts with
  | nil => intro w _; simp [qutex.lock_all]
  | cons c cs ih =>
    intro w ho
    have hc : o ≠ c := fun h => ho (by simp [h])
    have hcs : o ∉ cs := fun h => ho (by simp [h])
    simp [qutex.lock_all, lock_enter_held o c w hc, ih (w ++ [c]) hcs, List.replicate_succ]

theorem unlock_chain_drains (w : List Nat) :
    ∀ o : Nat, qutex.unlock_chain (w.length + 1) ⟨some o, w⟩ =
      ((w.map fun x => (⟨some x, some x, some x⟩ : handoff)) ++ [⟨none, none, none⟩],
        ⟨none, []⟩) := by
  induction w with
  | nil => intro o; simp [qutex.unlock_chain, qutex.unlock, qutex.internal_unlock]
  | cons c cs ih =>
    intro o
    have hstep : qutex.unlock_chain ((c :: cs).length + 1) ⟨some o, c :: cs⟩ =
        (⟨some c, some c, some c⟩ :: (qutex.unlock_chain (cs.length + 1) ⟨some c, cs⟩).1,
          (qutex.unlock_chain (cs.length + 1) ⟨some c, cs⟩).2) := by
      simp only [List.length_cons]
      rw [qutex.unlock_chain]
      simp [qutex.unlock, qutex.internal_unlock]
    rw [hstep, ih c]
    simp

/-- C2 fails as stated: the qutex is held by task 9 and task 7 is already waiting; tasks 1,
2, 3 (distinct, none of them 9, none already waiting) call `lock()` in that order.  The four
unlocks that follow make the owner 7, 1, 2, 3 and not 1, 2, 3, null: the earlier waiter is
served first. -/
theorem qutex_unlock_serves_earlier_waiter_counterexample :
    (qutex.lock_all ⟨some 9, [7]⟩ [1, 2, 3]).1 = ⟨some 9, [7, 1, 2, 3]⟩ ∧
    ((qutex.unlock_chain 4 (qutex.lock_all ⟨some 9, [7]⟩ [1, 2, 3]).1).1.map fun h => h.owner) =
      [some 7, some 1, some 2, some 3] ∧
    ((qutex.unlock_chain 4 (qutex.lock_all ⟨some 9, [7]⟩ [1, 2, 3]).1).1.map fun h => h.owner) ≠
      [some 1, some 2, some 3, none] := by
  decide

/-- C2 (amended): a qutex held by `O`, whatever its `waiting` list, on which the tasks `ts`
(none of them `O`) call `lock()` in order: each of them has to wait and is appended behind
the tasks already waiting.  Successive `unlock()` calls, each made by the owner of the
moment, one per waiter and one more, make the owner the tasks already waiting in their
order, then the tasks of `ts` in order, and finally null; at every unlock the new owner is
the task passed to `ready` and is the head of `waiting` as it was before that unlock.  With
nobody waiting beforehand, `ts.length + 1` unlocks make the owner the tasks of `ts` in
order, then null. -/
theorem qutex_unlock_grants_in_queue_order (q : qutex) (O : Nat) (ts : List Nat)
    (hown : q.owner = some O) (hO : O ∉ ts) :
    (q.lock_all ts).2 = List.replicate ts.length true ∧
    (q.lock_all ts).1 = ⟨some O, q.waiting ++ ts⟩ ∧
    ((qutex.unlock_chain (q.waiting.length + ts.length + 1) (q.lock_all ts).1).1.map
      fun h => h.owner) = (q.waiting ++ ts).map some ++ [none] ∧
    ((qutex.unlock_chain (q.waiting.length + ts.length + 1) (q.lock_all ts).1).1.map
      fun h => h.readied) = (q.waiting ++ ts).map some ++ [none] ∧
    (∀ h ∈ (qutex.unlock_chain (q.waiting.length + ts.length + 1) (q.lock_all ts).1).1,
      h.owner = h.head ∧ h.readied = h.owner) ∧
    (qutex.unlock_chain (q.waiting.length + ts.length + 1) (q.lock_all ts).1).2 = ⟨none, []⟩ ∧
    (q.waiting = [] →
      ((qutex.unlock_chain (ts.length + 1) (q.lock_all ts).1).1.map fun h => h.owner) =
        ts.map some ++ [none] ∧
      ((qutex.unlock_chain (ts.length + 1) (q.lock_all ts).1).1.map fun h => h.readied) =
        ts.map some ++ [none] ∧
      (qutex.unlock_chain (ts.length + 1) (q.lock_all ts).1).2 = ⟨none, []⟩) := by
  obtain ⟨owner, waiting⟩ := q
  simp only at hown
  subst hown
  have hl := lock_all_held O ts waiting hO
  have hd := unlock_chain_drains (waiting ++ ts) O
  rw [List.length_append] at hd
  simp only
  rw [hl, hd]
  refine ⟨rfl, rfl, by simp [Function.comp_def], by simp [Function.comp_def], ?_, rfl, ?_⟩
  · intro h hh
    simp only [List.mem_append, List.mem_map, List.mem_singleton] at hh
    rcases hh with ⟨x, _, rfl⟩ | rfl <;> exact ⟨rfl, rfl⟩
  · intro hw
    subst hw
    have hd0 := unlock_chain_drains ts O
    simp only [List.nil_append]
    rw [hd0]
    exact ⟨by simp [Function.comp_def], by simp [Function.comp_def], rfl⟩

theorem qutex_unlock_grants_in_queue_order_witness :
    ((qutex.unlock_chain 5 (qutex.lock_all ⟨some 9, [7]⟩ [1, 2, 3]).1).1.map fun h => h.owner) =
      [some 7, some 1, some 2, some 3, none] ∧
    ((qutex.unlock_chain 4 (qutex.lock_all ⟨some 9, []⟩ [1, 2, 3]).1).1.map fun h => h.owner) =
      [some 1, some 2, some 3, none] :=
  ⟨(qutex_unlock_grants_in_queue_order ⟨some 9, [7]⟩ 9 [1, 2, 3] rfl (by decide)).2.2.1,
    ((qutex_unlock_grants_in_queue_order ⟨some 9, []⟩ 9 [1, 2, 3] rfl (by decide)).2.2.2.2.2.2
      rfl).1⟩

/-! ## Swap-in: cancellation and timeouts -/

theorem drain_fresh (self now : Nat) (c : timeout_t) (cs : List timeout_t) (s : sched)
    (h : now < c.when) :
    task.drain self now (c :: cs) s = (c :: cs, s, outcome.returned) := by
  simp [task.drain, Nat.not_le.mpr h]

theorem drain_payload (self now : Nat) (c : timeout_t) (cs : List timeout_t) (s : sched)
    (e : exception_ptr) (h : c.when ≤ now) (he : c.exception = some e) :
    task.drain self now (c :: cs) s =
      (cs, if cs.isEmpty then s.remove_timeout_task self else s,
        outcome.raised (failure.payload e)) := by
  simp [task.drain, h, he]

theorem drain_plain (self now : Nat) (c : timeout_t) (cs : List timeout_t) (s : sched)
    (h : c.when ≤ now) (he : c.exception = none) :
    task.drain self now (c :: cs) s =
      task.drain self now cs (if cs.isEmpty then s.remove_timeout_task self else s) := by
  simp [task.drain, h, he]

theorem drain_never_interrupts (self now : Nat) (ts : List timeout_t) :
    ∀ s : sched, (task.drain self now ts s).2.2 ≠ outcome.raised failure.task_interrupted := by
  induction ts with
  | nil => intro s; simp [task.drain]
  | cons c cs ih =>
    intro s
    by_cases h : c.when ≤ now
    · cases he : c.exception with
      | none => rw [drain_plain self now c cs s h he]; exact ih _
      | some e => rw [drain_payload self now c cs s e h he]; simp
    · rw [drain_fresh self now c cs s (Nat.not_le.mp h)]; simp

/-- C3: on a swap-in `task::swap` raises task-interrupted exactly when `canceled` is set and
`unwinding` is not; when it does, `unwinding` becomes true, the timeouts list, the other
fields and the scheduler are as before, and a later swap-in of that task does not raise
task-interrupted again. -/
theorem task_swap_interrupts_iff_canceled_not_unwinding (t : task) (s : sched) (now : Nat) :
    ((t.swap s now).out = outcome.raised failure.task_interrupted ↔
      (t.canceled = true ∧ t.unwinding = false)) ∧
    ((t.swap s now).out = outcome.raised failure.task_interrupted →
      (t.swap s now).t.unwinding = true ∧
      (t.swap s now).t.timeouts = t.timeouts ∧
      (t.swap s now).t.canceled = t.canceled ∧
      (t.swap s now).t.exiting = t.exiting ∧
      (t.swap s now).s = s ∧
      ∀ (s2 : sched) (now2 : Nat),
        ((t.swap s now).t.swap s2 now2).out ≠ outcome.raised failure.task_interrupted) := by
  have hiff : (t.swap s now).out = outcome.raised failure.task_interrupted ↔
      (t.canceled = true ∧ t.unwinding = false) := by
    unfold task.swap
    by_cases hc : t.canceled = true <;> by_cases hu : t.unwinding = true
    · simp [hc, hu, drain_never_interrupts]
    · simp [hc, hu]
    · simp [hc, hu, drain_never_interrupts]
    · simp [hc, hu, drain_never_interrupts]
  refine ⟨hiff, ?_⟩
  intro h
  obtain ⟨hc, hu⟩ := hiff.mp h
  have hs : t.swap s now = ⟨⟨t.addr, t.exiting, t.canceled, true, t.timeouts, t.cproc⟩, s,
      outcome.raised failure.task_interrupted⟩ := by
    simp [task.swap, hc, hu]
  rw [hs]
  refine ⟨rfl, rfl, rfl, rfl, rfl, ?_⟩
  intro s2 now2
  simp [task.swap, drain_never_interrupts]


theorem drain_spec (self now : Nat) (ts : List timeout_t) :
    ∀ s : sched, ∃ gone : List timeout_t,
      ts = gone ++ (task.drain self now ts s).1 ∧
      (∀ x ∈ gone, x.when ≤ now) ∧
      ((task.drain self now ts s).2.2 = outcome.returned →
        (∀ x ∈ gone, x.exception = none) ∧
        ∀ x, (task.drain self now ts s).1.head? = some x → now < x.when) ∧
      (∀ f, (task.drain self now ts s).2.2 = outcome.raised f →
        ∃ pre x e, gone = pre ++ [x] ∧ (∀ y ∈ pre, y.exception = none) ∧
          x.exception = some e ∧ f = failure.payload e) ∧
      (task.drain self now ts s).2.2 ≠ outcome.check_failed := by
  induction ts with
  | nil =>
    intro s
    exact ⟨[], by simp [task.drain], by simp, by simp [task.drain], by simp [task.drain],
      by simp [task.drain]⟩
  | cons c cs ih =>
    intro s
    by_cases h : c.when ≤ now
    · cases he : c.exception with
      | none =>
        rw [drain_plain self now c cs s h he]
        obtain ⟨gone, h1, h2, h3, h4, h5⟩ :=
          ih (if cs.isEmpty then s.remove_timeout_task self else s)
        refine ⟨c :: gone, ?_, ?_, ?_, ?_, h5⟩
        · rw [List.cons_append, ← h1]
        · intro x hx
          rcases List.mem_cons.mp hx with rfl | hx
          · exact h
          · exact h2 x hx
        · intro hr
          refine ⟨?_, (h3 hr).2⟩
          intro x hx
          rcases List.mem_cons.mp hx with rfl | hx
          · exact he
          · exact (h3 hr).1 x hx
        · intro f hf
          obtain ⟨pre, x, e, hg, hp, hxe, hfe⟩ := h4 f hf
          refine ⟨c :: pre, x, e, by rw [hg, List.cons_append], ?_, hxe, hfe⟩
          intro y hy
          rcases List.mem_cons.mp hy with rfl | hy
          · exact he
          · exact hp y hy
      | some e =>
        rw [drain_payload self now c cs s e h he]
        refine ⟨[c], by simp, by simpa using h, by simp, ?_, by simp⟩
        intro f hf
        refine ⟨[], c, e, by simp, by simp, he, ?_⟩
        simpa using hf.symm
    · rw [drain_fresh self now c cs s (Nat.not_le.mp h)]
      refine ⟨[], by simp, by simp, ?_, by simp, by simp⟩
      intro _
      refine ⟨by simp, ?_⟩
      intro x hx
      simp only [List.head?_cons, Option.some.injEq] at hx
      subst hx
      exact Nat.not_le.mp h

/-- C4: when there is no cancellation to raise, `task::swap` takes a run `gone` of timeouts
off the front of the list, all of them with deadline `<= procnow()`.  It returns normally
exactly when none of them carried a payload, and then the front of what is left is not
expired; otherwise the last one taken is the only one with a payload and that payload is
what is raised.  Nothing else about the task changes. -/
theorem task_swap_consumes_expired_front (t : task) (s : sched) (now : Nat)
    (hc : ¬ (t.canceled = true ∧ t.unwinding = false)) :
    ∃ gone : List timeout_t,
      t.timeouts = gone ++ (t.swap s now).t.timeouts ∧
      (∀ x ∈ gone, x.when ≤ now) ∧
      ((t.swap s now).out = outcome.returned ↔ ∀ x ∈ gone, x.exception = none) ∧
      ((t.swap s now).out = outcome.returned →
        ∀ x, (t.swap s now).t.timeouts.head? = some x → now < x.when) ∧
      ((t.swap s now).out ≠ outcome.returned →
        ∃ pre x e, gone = pre ++ [x] ∧ (∀ y ∈ pre, y.exception = none) ∧
          x.exception = some e ∧ (t.swap s now).out = outcome.raised (failure.payload e)) ∧
      (t.swap s now).t.canceled = t.canceled ∧
      (t.swap s now).t.unwinding = t.unwinding ∧
      (t.swap s now).t.exiting = t.exiting := by
  have hs : t.swap s now =
      ⟨⟨t.addr, t.exiting, t.canceled, t.unwinding, (task.drain t.addr now t.timeouts s).1,
        t.cproc⟩, (task.drain t.addr now t.timeouts s).2.1,
        (task.drain t.addr now t.timeouts s).2.2⟩ := by
    unfold task.swap
    rw [if_neg]
    simpa using hc
  obtain ⟨gone, h1, h2, h3, h4, h5⟩ := drain_spec t.addr now t.timeouts s
  rw [hs]
  refine ⟨gone, h1, h2, ⟨fun hr => (h3 hr).1, ?_⟩, fun hr => (h3 hr).2, ?_, rfl, rfl, rfl⟩
  · intro hall
    cases hd : (task.drain t.addr now t.timeouts s).2.2 with
    | returned => rfl
    | raised f =>
      obtain ⟨pre, x, e, hg, _, hxe, _⟩ := h4 f hd
      have := hall x (by simp [hg])
      rw [hxe] at this
      cases this
    | check_failed => exact absurd hd h5
  · intro hne
    cases hd : (task.drain t.addr now t.timeouts s).2.2 with
    | returned => exact absurd hd hne
    | raised f =>
      obtain ⟨pre, x, e, hg, hp, hxe, hfe⟩ := h4 f hd
      exact ⟨pre, x, e, hg, hp, hxe, by rw [hfe]⟩
    | check_failed => exact absurd hd h5

theorem task_swap_consumes_expired_front_witness :
    ∃ gone : List timeout_t,
      [(⟨1, 3, none⟩ : timeout_t), ⟨2, 4, some exception_ptr.deadline_reached⟩, ⟨3, 9, none⟩]
        = gone ++ (task.swap ⟨7, false, false, false,
          [⟨1, 3, none⟩, ⟨2, 4, some exception_ptr.deadline_reached⟩, ⟨3, 9, none⟩], 0⟩
          ⟨[7]⟩ 5).t.timeouts :=
  (task_swap_consumes_expired_front ⟨7, false, false, false,
      [⟨1, 3, none⟩, ⟨2, 4, some exception_ptr.deadline_reached⟩, ⟨3, 9, none⟩], 0⟩ ⟨[7]⟩ 5
    (by decide)).imp fun _ h => h.1


/-! ## Qutex: reachable states and `try_lock` -/

theorem reachable_unowned_has_no_waiters (q : qutex) (h : qutex.Reachable q) :
    q.owner = none → q.waiting = [] := by
  induction h with
  | init => intro _; rfl
  | lock q t _ ih =>
    unfold qutex.lock_enter
    split
    · intro hn; simp at hn
    · rename_i hq
      intro hn
      exact absurd (Or.inl hn) hq
  | try_lock q t b _ ih =>
    unfold qutex.try_lock
    split
    · split
      · intro hn; simp at hn
      · exact ih
    · exact ih
  | unlock q t _ ih =>
    unfold qutex.internal_unlock
    split
    · split
      · intro hn; simp at hn
      · intro _; rfl
    · rename_i hq
      intro hn
      have hq0 : q.owner = none := hn
      simp [ih hq0]

/-- C5: in every qutex state reachable from the initial one, `try_lock` returns true only if
`owner` was null and `waiting` was empty; when it returns true the caller is the owner and
`waiting` is as before, when it returns false the qutex is unchanged; on no path is the
caller suspended. -/
theorem qutex_try_lock_only_when_free (q : qutex) (t : Nat) (owns_lock : Bool)
    (hr : qutex.Reachable q) :
    ((q.try_lock t owns_lock).ret = true → q.owner = none ∧ q.waiting = []) ∧
    ((q.try_lock t owns_lock).ret = true →
      (q.try_lock t owns_lock).q.owner = some t ∧
      (q.try_lock t owns_lock).q.waiting = q.waiting) ∧
    ((q.try_lock t owns_lock).ret = false → (q.try_lock t owns_lock).q = q) ∧
    (q.try_lock t owns_lock).suspended = false := by
  have hinv := reachable_unowned_has_no_waiters q hr
  unfold qutex.try_lock
  by_cases hb : owns_lock = true
  · by_cases ho : q.owner = none
    · simp [hb, ho, hinv ho]
    · simp [hb, ho]
  · simp [hb]

theorem qutex_try_lock_only_when_free_witness :
    (qutex.try_lock ⟨none, []⟩ 4 true).q.owner = some 4 ∧
    (qutex.try_lock (qutex.lock_enter ⟨none, []⟩ 1).1 4 true).q =
      (qutex.lock_enter ⟨none, []⟩ 1).1 :=
  ⟨((qutex_try_lock_only_when_free ⟨none, []⟩ 4 true qutex.Reachable.init).2.1 rfl).1,
    (qutex_try_lock_only_when_free (qutex.lock_enter ⟨none, []⟩ 1).1 4 true
      (qutex.Reachable.lock _ 1 qutex.Reachable.init)).2.2.1 rfl⟩


/-! ## Qutex: aborted wait -/

theorem erase_eq_filter_of_nodup (l : List Nat) (t : Nat) (h : l.Nodup) :
    l.erase t = l.filter (fun x => x ≠ t) := by
  rw [List.Nodup.erase_eq_filter h]
  congr 1
  funext x
  by_cases hx : x = t <;> simp [hx]

theorem lock_of_suspended {W : Type} (q0 : qutex) (w0 : W) (t : Nat)
    (env : qutex → W → qutex × W × Option failure) (hs : (q0.lock_enter t).2 = true) :
    q0.lock w0 t env =
      qutex.lock_resume (env (q0.lock_enter t).1 w0).1 (env (q0.lock_enter t).1 w0).2.1 t
        (env (q0.lock_enter t).1 w0).2.2 := by
  unfold qutex.lock
  simp [hs]

/-- C6: task `t` is suspended inside `lock()` and its swap-in raises the failure `f`, finding
the qutex in a state `q` whose `waiting` holds no task twice and does not hold the owner.
Then `lock()` propagates `f`, and afterwards `t` is neither in `waiting` nor the owner; if
`t` was not the owner at that moment, the owner is unchanged, nobody is readied, and
`waiting` is the old list without `t`, the others in their old order.  This is what the whole
`lock()` call does whenever the caller had to wait and the environment resumes it so. -/
theorem qutex_lock_aborted_wait_leaves_queue {W : Type} (q : qutex) (w : W) (t : Nat)
    (f : failure) (hnd : q.waiting.Nodup) (hown : ∀ o, q.owner = some o → o ∉ q.waiting) :
    (qutex.lock_resume q w t (some f)).out = outcome.raised f ∧
    t ∉ (qutex.lock_resume q w t (some f)).q.waiting ∧
    (qutex.lock_resume q w t (some f)).q.owner ≠ some t ∧
    (q.owner ≠ some t →
      (qutex.lock_resume q w t (some f)).q.owner = q.owner ∧
      (qutex.lock_resume q w t (some f)).q.waiting = q.waiting.filter (fun x => x ≠ t) ∧
      (qutex.lock_resume q w t (some f)).readied = none) ∧
    (∀ (q0 : qutex) (w0 : W) (env : qutex → W → qutex × W × Option failure),
      (q0.lock_enter t).2 = true → env (q0.lock_enter t).1 w0 = (q, w, some f) →
      q0.lock w0 t env = qutex.lock_resume q w t (some f)) := by
  obtain ⟨owner, waiting⟩ := q
  simp only at hnd hown
  refine ⟨rfl, ?_, ?_, ?_, ?_⟩
  · simp only [qutex.lock_resume, qutex.internal_unlock]
    by_cases ho : owner = some t
    · have ht : t ∉ waiting := hown t ho
      rw [if_pos ho]
      cases waiting with
      | nil => simp
      | cons c cs => exact fun hm => ht (List.mem_cons_of_mem _ hm)
    · rw [if_neg ho]
      exact fun hm => (List.Nodup.mem_erase_iff hnd).mp hm |>.1 rfl
  · simp only [qutex.lock_resume, qutex.internal_unlock]
    by_cases ho : owner = some t
    · have ht : t ∉ waiting := hown t ho
      rw [if_pos ho]
      cases waiting with
      | nil => simp
      | cons c cs =>
        intro hc
        simp only [Option.some.injEq] at hc
        exact ht (by simp [hc])
    · rw [if_neg ho]
      exact ho
  · intro ho
    simp only [qutex.lock_resume, qutex.internal_unlock, if_neg ho]
    exact ⟨trivial, erase_eq_filter_of_nodup waiting t hnd, trivial⟩
  · intro q0 w0 env hs he
    rw [lock_of_suspended q0 w0 t env hs, he]

theorem qutex_lock_aborted_wait_leaves_queue_witness :
    (qutex.lock_resume ⟨some 1, [2, 3, 4]⟩ () 3 (some failure.task_interrupted)).q.owner =
      some 1 ∧
    (qutex.lock_resume ⟨some 1, [2, 3, 4]⟩ () 3 (some failure.task_interrupted)).q.waiting =
      [2, 4] ∧
    (qutex.lock_resume ⟨some 1, [2, 3, 4]⟩ () 3 (some failure.task_interrupted)).readied =
      none :=
  (qutex_lock_aborted_wait_leaves_queue ⟨some 1, [2, 3, 4]⟩ () 3
    failure.task_interrupted (by decide) (by decide)).2.2.2.1 (by decide)


/-! ## Rendez: `sleep` -/

theorem lock_enter_acquired (q : qutex) (t : Nat) (h : (q.lock_enter t).2 = false) :
    (q.lock_enter t).1.owner = some t := by
  unfold qutex.lock_enter at h ⊢
  by_cases hq : q.owner = none ∨ q.owner = some t
  · rw [if_pos hq]
  · rw [if_neg hq] at h
    cases h

theorem lock_of_not_suspended {W : Type} (q0 : qutex) (w0 : W) (t : Nat)
    (env : qutex → W → qutex × W × Option failure) (hs : (q0.lock_enter t).2 = false) :
    q0.lock w0 t env = ⟨(q0.lock_enter t).1, w0, outcome.returned, none, false⟩ := by
  unfold qutex.lock
  simp [hs]

theorem lock_resume_returned_owner {W : Type} (q : qutex) (w : W) (t : Nat)
    (res : Option failure) (h : (qutex.lock_resume q w t res).out = outcome.returned) :
    (qutex.lock_resume q w t res).q.owner = some t := by
  unfold qutex.lock_resume at h ⊢
  cases res with
  | none =>
    by_cases ho : q.owner = some t
    · simp only [ho, if_true]
    · simp [ho] at h
  | some f => simp at h

theorem lock_returned_owner {W : Type} (q : qutex) (w : W) (t : Nat)
    (env : qutex → W → qutex × W × Option failure)
    (h : (q.lock w t env).out = outcome.returned) : (q.lock w t env).q.owner = some t := by
  by_cases hs : (q.lock_enter t).2 = true
  · rw [lock_of_suspended q w t env hs] at h ⊢
    exact lock_resume_returned_owner _ _ t _ h
  · have hs2 : (q.lock_enter t).2 = false := by simpa using hs
    rw [lock_of_not_suspended q w t env hs2]
    exact lock_enter_acquired q t hs2

theorem sleep_catch_spec (rz : rendez) (q : qutex) (t : Nat) (f : failure)
    (readied : List Nat) (env_catch : sleep_env) :
    (rz.sleep_catch q t f readied env_catch).q =
      (q.lock (⟨rz.waiting.erase t⟩ : rendez) t env_catch).q ∧
    (rz.sleep_catch q t f readied env_catch).rz =
      (q.lock (⟨rz.waiting.erase t⟩ : rendez) t env_catch).w ∧
    ((q.lock (⟨rz.waiting.erase t⟩ : rendez) t env_catch).out = outcome.returned →
      (rz.sleep_catch q t f readied env_catch).out = outcome.raised f ∧
      (rz.sleep_catch q t f readied env_catch).owns = true ∧
      (rz.sleep_catch q t f readied env_catch).q.owner = some t) ∧
    (∀ g, (q.lock (⟨rz.waiting.erase t⟩ : rendez) t env_catch).out = outcome.raised g →
      (rz.sleep_catch q t f readied env_catch).out = outcome.raised g ∧
      (rz.sleep_catch q t f readied env_catch).owns = false) ∧
    (rz.sleep_catch q t f readied env_catch).out ≠ outcome.returned := by
  have ho := lock_returned_owner q (⟨rz.waiting.erase t⟩ : rendez) t env_catch
  simp only [rendez.sleep_catch]
  generalize q.lock (⟨rz.waiting.erase t⟩ : rendez) t env_catch = l at ho ⊢
  obtain ⟨lq, lw, lout, lr, ls⟩ := l
  cases lout with
  | returned => simpa using ho
  | raised g => simp
  | check_failed => simp


/-- C7 fails as stated: task 1 sleeps holding the qutex; its swap-in raises deadline-reached
while task 2 holds the qutex, so the handler's `lk.lock()` has to wait, and that wait is
itself aborted by task-interrupted.  `sleep` then propagates task-interrupted, not the
failure of the resumption, and the lock is not re-acquired. -/
theorem rendez_sleep_relock_aborted_counterexample :
    rendez.sleep ⟨[]⟩ ⟨some 1, []⟩ true 1
      (fun _ _ => (⟨some 2, []⟩, ⟨[1]⟩, some (failure.payload exception_ptr.deadline_reached)))
      (fun q rz => (q, rz, none))
      (fun q rz => (q, rz, some failure.task_interrupted))
      = ⟨⟨some 2, []⟩, false, ⟨[]⟩, outcome.raised failure.task_interrupted, []⟩ ∧
    outcome.raised failure.task_interrupted ≠
      outcome.raised (failure.payload exception_ptr.deadline_reached) := by
  decide

/-- C7 (amended): `rendez::sleep` called by `t`, which holds the qutex.  Before suspending it
releases the qutex (ownership goes to the head of the qutex's `waiting`, or to nobody) and
appends `t` to the rendez's `waiting` unless it is there already, so a duplicate-free list
stays duplicate-free.  `sleep` returns only after a normal resumption and then `t` owns the
qutex again.  If the resumption raises `f`, `t` is erased from `waiting` and `lk.lock()` is
called: when that call returns, `t` owns the qutex and `f` is propagated; when that call
itself raises `g`, it is `g` that is propagated and the lock is not owned. -/
theorem rendez_sleep_relocks_unless_relock_fails (rz : rendez) (q : qutex) (t : Nat)
    (env_swap env_try env_catch : sleep_env) (hown : q.owner = some t)
    (e : qutex × rendez × Option Nat) (he : e = rz.sleep_enter q t)
    (r : qutex × rendez × Option failure) (hr : r = env_swap e.1 e.2.1)
    (s : sleep_result) (hs : s = rz.sleep q true t env_swap env_try env_catch) :
    e.1 = ⟨q.waiting.head?, q.waiting.tail⟩ ∧
    e.2.2 = q.waiting.head? ∧
    e.2.1.waiting = (if t ∈ rz.waiting then rz.waiting else rz.waiting ++ [t]) ∧
    (rz.waiting.Nodup → e.2.1.waiting.Nodup) ∧
    (s.out = outcome.returned → r.2.2 = none ∧ s.owns = true ∧ s.q.owner = some t) ∧
    (r.2.2 = none → (r.1.lock r.2.1 t env_try).out = outcome.returned →
      s.out = outcome.returned ∧ s.q = (r.1.lock r.2.1 t env_try).q ∧
      s.rz = (r.1.lock r.2.1 t env_try).w) ∧
    (∀ f, r.2.2 = some f →
      (r.2.1.waiting.Nodup → t ∉ r.2.1.waiting.erase t) ∧
      s.q = (r.1.lock (⟨r.2.1.waiting.erase t⟩ : rendez) t env_catch).q ∧
      s.rz = (r.1.lock (⟨r.2.1.waiting.erase t⟩ : rendez) t env_catch).w ∧
      ((r.1.lock (⟨r.2.1.waiting.erase t⟩ : rendez) t env_catch).out = outcome.returned →
        s.out = outcome.raised f ∧ s.owns = true ∧ s.q.owner = some t) ∧
      (∀ g, (r.1.lock (⟨r.2.1.waiting.erase t⟩ : rendez) t env_catch).out = outcome.raised g →
        s.out = outcome.raised g ∧ s.owns = false)) := by
  have he1 : e.1 = ⟨q.waiting.head?, q.waiting.tail⟩ := by
    rw [he]
    simp only [rendez.sleep_enter, qutex.unlock, qutex.internal_unlock, hown, if_true]
    cases q.waiting <;> rfl
  have he2 : e.2.2 = q.waiting.head? := by
    rw [he]
    simp only [rendez.sleep_enter, qutex.unlock, qutex.internal_unlock, hown, if_true]
    cases q.waiting <;> rfl
  have he3 : e.2.1.waiting = (if t ∈ rz.waiting then rz.waiting else rz.waiting ++ [t]) := by
    rw [he]
    simp only [rendez.sleep_enter]
    split <;> rfl
  have hsw : s = match r.2.2 with
      | none =>
        match (r.1.lock r.2.1 t env_try).out with
        | outcome.returned =>
          ⟨(r.1.lock r.2.1 t env_try).q, true, (r.1.lock r.2.1 t env_try).w, outcome.returned,
            e.2.2.toList ++ (r.1.lock r.2.1 t env_try).readied.toList⟩
        | outcome.raised g =>
          rendez.sleep_catch (r.1.lock r.2.1 t env_try).w (r.1.lock r.2.1 t env_try).q t g
            (e.2.2.toList ++ (r.1.lock r.2.1 t env_try).readied.toList) env_catch
        | outcome.check_failed =>
          ⟨(r.1.lock r.2.1 t env_try).q, false, (r.1.lock r.2.1 t env_try).w,
            outcome.check_failed, e.2.2.toList ++ (r.1.lock r.2.1 t env_try).readied.toList⟩
      | some f => rendez.sleep_catch r.2.1 r.1 t f e.2.2.toList env_catch := by
    rw [hs, hr, he]
    simp only [rendez.sleep, if_true]
  refine ⟨he1, he2, he3, ?_, ?_, ?_, ?_⟩
  · intro hnd
    rw [he3]
    split
    · exact hnd
    · rename_i hm
      exact List.Nodup.append hnd (List.nodup_singleton _) (by simpa using hm)
  · intro hout
    cases hres : r.2.2 with
    | none =>
      rw [hres] at hsw
      simp only at hsw
      have ho := lock_returned_owner r.1 r.2.1 t env_try
      generalize r.1.lock r.2.1 t env_try = l at hsw ho
      obtain ⟨lq, lw, lout, lr, ls⟩ := l
      cases lout with
      | returned =>
        simp only at hsw
        rw [hsw]
        exact ⟨rfl, rfl, ho rfl⟩
      | raised g =>
        simp only at hsw
        rw [hsw] at hout
        exact absurd hout (sleep_catch_spec _ _ t g _ env_catch).2.2.2.2
      | check_failed =>
        simp only at hsw
        rw [hsw] at hout
        cases hout
    | some f =>
      rw [hres] at hsw
      simp only at hsw
      rw [hsw] at hout
      exact absurd hout (sleep_catch_spec _ _ t f _ env_catch).2.2.2.2
  · intro hres hl
    rw [hres] at hsw
    simp only at hsw
    rw [hl] at hsw
    simp only at hsw
    rw [hsw]
    exact ⟨rfl, rfl, rfl⟩
  · intro f hres
    rw [hres] at hsw
    simp only at hsw
    have hc := sleep_catch_spec r.2.1 r.1 t f e.2.2.toList env_catch
    rw [← hsw] at hc
    refine ⟨?_, hc.1, hc.2.1, hc.2.2.1, hc.2.2.2.1⟩
    intro hnd hm
    exact ((List.Nodup.mem_erase_iff hnd).mp hm).1 rfl

theorem rendez_sleep_relocks_unless_relock_fails_witness :
    (rendez.sleep ⟨[5]⟩ ⟨some 1, [2]⟩ true 1
      (fun _ rz => (⟨none, []⟩, rz, some failure.task_interrupted))
      (fun q rz => (q, rz, none)) (fun q rz => (q, rz, none))).out =
        outcome.raised failure.task_interrupted ∧
    (rendez.sleep ⟨[5]⟩ ⟨some 1, [2]⟩ true 1
      (fun _ rz => (⟨none, []⟩, rz, some failure.task_interrupted))
      (fun q rz => (q, rz, none)) (fun q rz => (q, rz, none))).owns = true ∧
    (rendez.sleep ⟨[5]⟩ ⟨some 1, [2]⟩ true 1
      (fun _ rz => (⟨none, []⟩, rz, some failure.task_interrupted))
      (fun q rz => (q, rz, none)) (fun q rz => (q, rz, none))).q.owner = some 1 :=
  (rendez_sleep_relocks_unless_relock_fails ⟨[5]⟩ ⟨some 1, [2]⟩ 1
    (fun _ rz => (⟨none, []⟩, rz, some failure.task_interrupted))
    (fun q rz => (q, rz, none)) (fun q rz => (q, rz, none)) rfl
    _ rfl _ rfl _ rfl).2.2.2.2.2.2 failure.task_interrupted rfl |>.2.2.2.1 (by decide)


/-! ## Rendez: `wakeup` -/

/-- C8: `rendez::wakeup` on a non-empty `waiting` list removes its head, passes that task
(and, a call readying at most one task, no other) to `ready` and leaves the tail as it was;
on an empty list it changes nothing and readies nobody. -/
theorem rendez_wakeup_pops_longest_waiter (rz : rendez) :
    (rz.waiting ≠ [] →
      ∃ t, rz.waiting.head? = some t ∧ rz.wakeup.2 = some t ∧
        rz.waiting = t :: rz.wakeup.1.waiting) ∧
    (rz.waiting = [] → rz.wakeup = (rz, none)) ∧
    rz.wakeup.1.waiting = rz.waiting.tail ∧
    rz.wakeup.2 = rz.waiting.head? := by
  obtain ⟨waiting⟩ := rz
  cases waiting with
  | nil => simp [rendez.wakeup]
  | cons c cs => simp [rendez.wakeup]

theorem rendez_wakeup_pops_longest_waiter_witness :
    ∃ t, (⟨[4, 5, 6]⟩ : rendez).waiting.head? = some t ∧
      (rendez.wakeup ⟨[4, 5, 6]⟩).2 = some t ∧
      (⟨[4, 5, 6]⟩ : rendez).waiting = t :: (rendez.wakeup ⟨[4, 5, 6]⟩).1.waiting :=
  (rendez_wakeup_pops_longest_waiter ⟨[4, 5, 6]⟩).1 (by decide)


/-! ## `recvall` -/

theorem to_size_t_of_bounded (i : Int) (h0 : 0 ≤ i) (h1 : i < 2 ^ 64) :
    to_size_t i = i.toNat := by
  unfold to_size_t
  congr 1
  omega

theorem to_ssize_t_of_bounded (i : Int) (h0 : 0 ≤ i) (h1 : i < 2 ^ 63) :
    to_ssize_t i = i := by
  unfold to_ssize_t
  have : i % 2 ^ 64 = i := by omega
  rw [this, if_pos h1]

theorem recvall_loop_spec (recv : Nat → Nat → Nat → Int) (len : Nat) (hlen : len < 2 ^ 63)
    (hrecv : ∀ n off, off < len → recv n off (len - off) ≤ ((len - off : Nat) : Int)) :
    ∀ fuel n pos, pos ≤ len → len - pos < fuel →
      ∃ p calls,
        sockbase.recvall_loop recv len fuel n pos ((len : Int) - pos) = some (p, calls) ∧
        pos ≤ p ∧ p ≤ len ∧
        (p : Int) = pos + ((calls.filter fun c => 0 < c.nr).map fun c => c.nr).sum ∧
        (∀ i c, calls[i]? = some c →
          (c.offset : Int) = pos + ((calls.take i).map fun c => c.nr).sum ∧
          c.len = len - c.offset ∧ c.nr = recv (n + i) c.offset c.len ∧ c.offset < len) ∧
        (∀ i c, calls[i]? = some c → i + 1 < calls.length → 0 < c.nr) ∧
        (p = len ↔ ∀ c ∈ calls, 0 < c.nr) ∧
        (p < len → ∃ c, calls.getLast? = some c ∧ c.nr ≤ 0) ∧
        (pos = len → calls = []) := by
  intro fuel
  induction fuel with
  | zero => intro n pos _ h; omega
  | succ fuel ih =>
    intro n pos hpos hfuel
    by_cases hp : pos = len
    · refine ⟨pos, [], ?_, le_refl _, hpos, by simp, by simp, by simp, by simp [hp], ?_, by simp⟩
      · simp [sockbase.recvall_loop, hp]
      · intro h; omega
    · have hlt : pos < len := lt_of_le_of_ne hpos hp
      have hsz : to_size_t ((len : Int) - pos) = len - pos := by
        rw [to_size_t_of_bounded _ (by omega) (by omega)]
        omega
      by_cases hnr : 0 < recv n pos (len - pos)
      · have hle := hrecv n pos hlt
        obtain ⟨k, hk⟩ := Int.eq_ofNat_of_zero_le (le_of_lt hnr)
        have hk0 : 0 < k := by omega
        have hkle : k ≤ len - pos := by omega
        have hpos2 : to_size_t ((pos : Int) + recv n pos (len - pos)) = pos + k := by
          rw [to_size_t_of_bounded _ (by omega) (by omega)]
          omega
        have hleft : to_ssize_t ((len : Int) - pos - recv n pos (len - pos)) =
            (len : Int) - ((pos + k : Nat) : Int) := by
          rw [to_ssize_t_of_bounded _ (by omega) (by omega)]
          omega
        obtain ⟨p, calls, h1, h2, h3, h4, h5, h6, h7, h8, _⟩ :=
          ih (n + 1) (pos + k) (by omega) (by omega)
        refine ⟨p, ⟨pos, len - pos, recv n pos (len - pos)⟩ :: calls, ?_, by omega, h3, ?_, ?_,
          ?_, ?_, ?_, ?_⟩
        · rw [sockbase.recvall_loop]
          simp only [hsz, hpos2, hleft, h1, if_pos hp, if_pos hnr, ne_eq, not_false_eq_true,
            gt_iff_lt]
        · rw [h4]
          simp only [List.filter_cons, hnr, decide_True, if_true, List.map_cons, List.sum_cons]
          rw [hk]
          push_cast
          ring
        · intro i c hc
          cases i with
          | zero =>
            simp only [List.getElem?_cons_zero, Option.some.injEq] at hc
            subst hc
            exact ⟨by simp, rfl, rfl, hlt⟩
          | succ j =>
            simp only [List.getElem?_cons_succ] at hc
            obtain ⟨a1, a2, a3, a4⟩ := h5 j c hc
            refine ⟨?_, a2, ?_, a4⟩
            · rw [a1]
              simp only [List.take_succ_cons, List.map_cons, List.sum_cons]
              rw [hk]
              push_cast
              ring
            · rw [a3]
              congr 1
              ring
        · intro i c hc hi
          cases i with
          | zero =>
            simp only [List.getElem?_cons_zero, Option.some.injEq] at hc
            subst hc
            exact hnr
          | succ j =>
            simp only [List.getElem?_cons_succ] at hc
            simp only [List.length_cons] at hi
            exact h6 j c hc (by omega)
        · rw [h7]
          simp [hnr]
        · intro hpl
          obtain ⟨c, hc1, hc2⟩ := h8 hpl
          refine ⟨c, ?_, hc2⟩
          cases calls with
          | nil => simp at hc1
          | cons d ds => simpa [List.getLast?_cons_cons] using hc1
        · intro h; exact absurd h hp
      · refine ⟨pos, [⟨pos, len - pos, recv n pos (len - pos)⟩], ?_, le_refl _, hpos, ?_, ?_, ?_,
          ?_, ?_, ?_⟩
        · rw [sockbase.recvall_loop]
          simp only [hsz, if_pos hp, if_neg hnr, ne_eq, not_false_eq_true, gt_iff_lt]
        · simp [hnr]
        · intro i c hc
          cases i with
          | zero =>
            simp only [List.getElem?_cons_zero, Option.some.injEq] at hc
            subst hc
            exact ⟨by simp, rfl, rfl, hlt⟩
          | succ j => simp at hc
        · intro i c _ hi
          simp at hi
        · simp [hnr, hp]
        · intro _
          exact ⟨_, rfl, by simpa using hnr⟩
        · intro h; exact absurd h hp


/-- C9: `recvall` for a buffer of `len <= SSIZE_MAX` bytes on a socket whose `recv`, asked
for the rest of the buffer, never returns more than it was asked for.  With enough fuel the call returns; every `recv` call
was given the offset equal to the bytes received so far (the sum of the earlier results) and
the size `len` minus that offset, and was made while fewer than `len` bytes had arrived;
every call but the last returned a positive count.  The value returned is the sum of the
positive results; if it is below `len`, the last call returned `<= 0`.  It never exceeds
`len`, it equals `len` exactly when no call returned `<= 0`, and for `len = 0` no call is
made and the value is 0. -/
theorem sockbase_recvall_sums_until_short_or_full (recv : Nat → Nat → Nat → Int)
    (len fuel : Nat) (hlen : len ≤ 2 ^ 63 - 1)
    (hrecv : ∀ n off, off < len → 0 < recv n off (len - off) →
      recv n off (len - off) ≤ ((len - off : Nat) : Int))
    (hfuel : len < fuel) :
    ∃ (ret : Int) (calls : List recv_call),
      sockbase.recvall recv len fuel = some (ret, calls) ∧
      (∀ i c, calls[i]? = some c →
        (c.offset : Int) = ((calls.take i).map fun c => c.nr).sum ∧
        c.len = len - c.offset ∧ c.nr = recv i c.offset c.len ∧ c.offset < len) ∧
      (∀ i c, calls[i]? = some c → i + 1 < calls.length → 0 < c.nr) ∧
      ret = ((calls.filter fun c => 0 < c.nr).map fun c => c.nr).sum ∧
      (ret < len → ∃ c, calls.getLast? = some c ∧ c.nr ≤ 0) ∧
      0 ≤ ret ∧ ret ≤ len ∧
      (ret = len ↔ ∀ c ∈ calls, 0 < c.nr) ∧
      (len = 0 → calls = [] ∧ ret = 0) := by
  have hlen2 : len < 2 ^ 63 := by omega
  have hrecv2 : ∀ n off, off < len → recv n off (len - off) ≤ ((len - off : Nat) : Int) := by
    intro n off hoff
    by_cases h : 0 < recv n off (len - off)
    · exact hrecv n off hoff h
    · have : (0 : Int) ≤ ((len - off : Nat) : Int) := Int.ofNat_nonneg _
      omega
  obtain ⟨p, calls, h1, _, h3, h4, h5, h6, h7, h8, h9⟩ :=
    recvall_loop_spec recv len hlen2 hrecv2 fuel 0 0 (Nat.zero_le _) (by omega)
  have hl0 : to_ssize_t (len : Int) = (len : Int) - ((0 : Nat) : Int) := by
    rw [to_ssize_t_of_bounded _ (by omega) (by omega)]
    simp
  have hp : to_ssize_t (p : Int) = p := to_ssize_t_of_bounded _ (by omega) (by omega)
  refine ⟨p, calls, ?_, ?_, h6, ?_, ?_, by omega, by exact_mod_cast h3, ?_, ?_⟩
  · unfold sockbase.recvall
    rw [hl0, h1]
    simp [hp]
  · intro i c hc
    obtain ⟨a1, a2, a3, a4⟩ := h5 i c hc
    refine ⟨by simpa using a1, a2, ?_, a4⟩
    rw [a3, Nat.zero_add]
  · simpa using h4
  · intro hlt
    exact h8 (by exact_mod_cast hlt)
  · rw [← h7]
    exact_mod_cast Iff.rfl
  · intro h0
    have hc := h9 h0.symm
    refine ⟨hc, ?_⟩
    have : p = 0 := by omega
    simp [this]

theorem sockbase_recvall_sums_until_short_or_full_witness :
    ∃ (ret : Int) (calls : List recv_call),
      sockbase.recvall (fun _ _ sz => min 4 (sz : Int)) 10 11 = some (ret, calls) ∧
      ret = ((calls.filter fun c => 0 < c.nr).map fun c => c.nr).sum ∧ ret ≤ 10 :=
  (sockbase_recvall_sums_until_short_or_full (fun _ _ sz => min 4 (sz : Int)) 10 11
    (by decide) (fun _ _ _ _ => min_le_right _ _) (by decide)).imp
    fun _ h => h.imp fun _ h2 => ⟨h2.1, h2.2.2.2.1, h2.2.2.2.2.2.2.1⟩


/-! ## Swap-in: what is left in the timeouts list -/

/-- C10 fails as stated: two expired timeouts, the first carrying deadline-reached.  The
swap-in raises that payload at once, and the second timeout, whose deadline 2 is `<= 5`, is
still in the list when `task::swap` has finished. -/
theorem task_swap_payload_leaves_expired_counterexample :
    (task.swap ⟨7, false, false, false,
        [⟨1, 1, some exception_ptr.deadline_reached⟩, ⟨2, 2, none⟩], 0⟩ ⟨[7]⟩ 5).out =
      outcome.raised (failure.payload exception_ptr.deadline_reached) ∧
    (task.swap ⟨7, false, false, false,
        [⟨1, 1, some exception_ptr.deadline_reached⟩, ⟨2, 2, none⟩], 0⟩ ⟨[7]⟩ 5).t.timeouts =
      [⟨2, 2, none⟩] ∧
    ∃ x ∈ (task.swap ⟨7, false, false, false,
        [⟨1, 1, some exception_ptr.deadline_reached⟩, ⟨2, 2, none⟩], 0⟩ ⟨[7]⟩ 5).t.timeouts,
      x.when ≤ 5 := by
  refine ⟨by decide, by decide, ⟨2, 2, none⟩, by decide, by decide⟩

/-- The loop tests the front of the list only: behind a front timeout that is not yet due,
an expired timeout is not looked at.  Such a list is not in deadline order. -/
theorem task_swap_tests_front_only :
    (task.swap ⟨7, false, false, false, [⟨1, 9, none⟩, ⟨2, 2, none⟩], 0⟩ ⟨[7]⟩ 5) =
      ⟨⟨7, false, false, false, [⟨1, 9, none⟩, ⟨2, 2, none⟩], 0⟩, ⟨[7]⟩, outcome.returned⟩ := by
  decide

/-- C10 (amended): when the swap-in does not raise cancellation and `task::swap` returns
normally, the front of the timeouts list, if any, has a deadline `> procnow()`, so that no
expired timeout remains in a list that is in deadline order.  When it raises the payload of
a timeout, what is left is the part of the list behind that timeout, whatever its deadlines;
the timeouts in front of it were expired and without payload. -/
theorem task_swap_returned_leaves_no_expired (t : task) (s : sched) (now : Nat)
    (hc : ¬ (t.canceled = true ∧ t.unwinding = false)) :
    ((t.swap s now).out = outcome.returned →
      ∀ x, (t.swap s now).t.timeouts.head? = some x → now < x.when) ∧
    ((t.swap s now).out = outcome.returned →
      t.timeouts.Pairwise (fun a b => a.when ≤ b.when) →
      ∀ x ∈ (t.swap s now).t.timeouts, now < x.when) ∧
    (∀ f, (t.swap s now).out = outcome.raised f →
      ∃ pre x e, t.timeouts = pre ++ x :: (t.swap s now).t.timeouts ∧
        f = failure.payload e ∧ x.exception = some e ∧ x.when ≤ now ∧
        ∀ y ∈ pre, y.when ≤ now ∧ y.exception = none) := by
  have hs : t.swap s now =
      ⟨⟨t.addr, t.exiting, t.canceled, t.unwinding, (task.drain t.addr now t.timeouts s).1,
        t.cproc⟩, (task.drain t.addr now t.timeouts s).2.1,
        (task.drain t.addr now t.timeouts s).2.2⟩ := by
    unfold task.swap
    rw [if_neg]
    simpa using hc
  obtain ⟨gone, h1, h2, h3, h4, _⟩ := drain_spec t.addr now t.timeouts s
  rw [hs]
  simp only
  refine ⟨fun hr => (h3 hr).2, ?_, ?_⟩
  · intro hr hsorted x hx
    have hrest : ((task.drain t.addr now t.timeouts s).1).Pairwise
        (fun a b => a.when ≤ b.when) := by
      rw [h1] at hsorted
      exact (List.pairwise_append.mp hsorted).2.1
    have hhead := (h3 hr).2
    cases hd : (task.drain t.addr now t.timeouts s).1 with
    | nil => rw [hd] at hx; cases hx
    | cons c cs =>
      rw [hd] at hx hrest hhead
      have hcw : now < c.when := hhead c rfl
      rcases List.mem_cons.mp hx with rfl | hx
      · exact hcw
      · exact lt_of_lt_of_le hcw ((List.pairwise_cons.mp hrest).1 x hx)
  · intro f hf
    obtain ⟨pre, x, e, hg, hp, hxe, hfe⟩ := h4 f hf
    refine ⟨pre, x, e, ?_, hfe, hxe, h2 x (by simp [hg]), ?_⟩
    · conv_lhs => rw [h1, hg]
      simp
    · intro y hy
      exact ⟨h2 y (by simp [hg, hy]), hp y hy⟩

theorem task_swap_returned_leaves_no_expired_witness :
    (task.swap ⟨7, false, false, false, [⟨1, 1, none⟩, ⟨2, 2, none⟩, ⟨3, 8, none⟩], 0⟩
      ⟨[7]⟩ 5).out = outcome.returned ∧
    (⟨3, 8, none⟩ : timeout_t) ∈
      (task.swap ⟨7, false, false, false, [⟨1, 1, none⟩, ⟨2, 2, none⟩, ⟨3, 8, none⟩], 0⟩
        ⟨[7]⟩ 5).t.timeouts ∧
    5 < (⟨3, 8, none⟩ : timeout_t).when :=
  ⟨by decide, by decide,
    (task_swap_returned_leaves_no_expired
      ⟨7, false, false, false, [⟨1, 1, none⟩, ⟨2, 2, none⟩, ⟨3, 8, none⟩], 0⟩ ⟨[7]⟩ 5
      (by decide)).2.1 (by decide) (by decide) ⟨3, 8, none⟩ (by decide)⟩

end ten

namespace ten

/-! ## Timeout removal -/

theorem eraseP_addr_eq_filter (h : Nat) (l : List timeout_t) :
    (l.map fun x => x.addr).Nodup →
      (l.eraseP fun x => x.addr == h) = l.filter fun x => x.addr != h := by
  induction l with
  | nil => intro _; rfl
  | cons c cs ih =>
    intro hnd
    have hnd2 : (∀ x ∈ cs, ¬x.addr = c.addr) ∧ (cs.map fun x => x.addr).Nodup := by
      simpa using hnd
    by_cases hc : c.addr = h
    · have hnot : ∀ x ∈ cs, x.addr ≠ h := by
        intro x hx hxa
        exact hnd2.1 x hx (by rw [hxa, hc])
      rw [List.eraseP_cons_of_pos (by simp [hc])]
      rw [List.filter_cons_of_neg (by simp [hc])]
      symm
      rw [List.filter_eq_self]
      intro x hx
      simpa using hnot x hx
    · rw [List.eraseP_cons_of_neg (by simp [hc])]
      rw [List.filter_cons_of_pos (by simp [hc])]
      rw [ih hnd2.2]

theorem mem_remove_timeout_task (s : sched) (a x : Nat) :
    x ∈ (s.remove_timeout_task a).timeout_tasks ↔ x ∈ s.timeout_tasks ∧ x ≠ a := by
  simp [sched.remove_timeout_task]

/-- C11: `task::remove_timeout(h)` on a task whose timeouts are distinct objects.  Afterwards
no timeout with handle `h` is in the list, and the list is the old one without that entry,
the others in their old order.  `remove_timeout_task` is called exactly when the list is then
empty: in that case the task is not in the scheduler's timeout-owning set afterwards, and
otherwise the set is untouched, so a registered task stays registered. -/
theorem task_remove_timeout_erases_and_deregisters_when_empty (t : task) (s : sched) (h : Nat)
    (hnd : (t.timeouts.map fun x => x.addr).Nodup) :
    (∀ x ∈ (t.remove_timeout s h).1.timeouts, x.addr ≠ h) ∧
    (t.remove_timeout s h).1.timeouts = t.timeouts.filter (fun x => x.addr != h) ∧
    (∀ x ∈ t.timeouts, x.addr ≠ h → x ∈ (t.remove_timeout s h).1.timeouts) ∧
    List.Sublist (t.remove_timeout s h).1.timeouts t.timeouts ∧
    ((t.remove_timeout s h).1.timeouts = [] →
      (t.remove_timeout s h).2 = s.remove_timeout_task t.addr ∧
      t.addr ∉ (t.remove_timeout s h).2.timeout_tasks) ∧
    ((t.remove_timeout s h).1.timeouts ≠ [] → (t.remove_timeout s h).2 = s) ∧
    (t.addr ∈ (t.remove_timeout s h).2.timeout_tasks ↔
      t.addr ∈ s.timeout_tasks ∧ (t.remove_timeout s h).1.timeouts ≠ []) := by
  have hts : (t.remove_timeout s h).1.timeouts = t.timeouts.filter (fun x => x.addr != h) := by
    simp only [task.remove_timeout]
    exact eraseP_addr_eq_filter h t.timeouts hnd
  have hs : (t.remove_timeout s h).2 =
      if (t.remove_timeout s h).1.timeouts.isEmpty then s.remove_timeout_task t.addr
      else s := by
    simp only [task.remove_timeout]
  have hempty : (t.remove_timeout s h).1.timeouts = [] →
      (t.remove_timeout s h).2 = s.remove_timeout_task t.addr := by
    intro he
    rw [hs, he]
    rfl
  have hrest : (t.remove_timeout s h).1.timeouts ≠ [] → (t.remove_timeout s h).2 = s := by
    intro hne
    rw [hs]
    cases hl : (t.remove_timeout s h).1.timeouts with
    | nil => exact absurd hl hne
    | cons c cs => rfl
  refine ⟨?_, hts, ?_, ?_, ?_, hrest, ?_⟩
  · intro x hx
    rw [hts] at hx
    simpa using (List.mem_filter.mp hx).2
  · intro x hx hne
    rw [hts]
    exact List.mem_filter.mpr ⟨hx, by simpa using hne⟩
  · rw [hts]
    exact List.filter_sublist _
  · intro he
    refine ⟨hempty he, ?_⟩
    rw [hempty he, mem_remove_timeout_task]
    exact fun hm => hm.2 rfl
  · by_cases he : (t.remove_timeout s h).1.timeouts = []
    · rw [hempty he, mem_remove_timeout_task]
      constructor
      · exact fun hm => absurd rfl hm.2
      · exact fun hm => absurd he hm.2
    · rw [hrest he]
      exact ⟨fun hm => ⟨hm, he⟩, fun hm => hm.1⟩

theorem task_remove_timeout_erases_and_deregisters_when_empty_witness :
    (task.remove_timeout ⟨7, false, false, false,
        [⟨11, 3, none⟩, ⟨12, 4, some exception_ptr.deadline_reached⟩, ⟨13, 9, none⟩], 0⟩
        ⟨[5, 7]⟩ 12).1.timeouts = [⟨11, 3, none⟩, ⟨13, 9, none⟩] ∧
    (task.remove_timeout ⟨7, false, false, false,
        [⟨11, 3, none⟩, ⟨12, 4, some exception_ptr.deadline_reached⟩, ⟨13, 9, none⟩], 0⟩
        ⟨[5, 7]⟩ 12).2 = ⟨[5, 7]⟩ ∧
    7 ∉ (task.remove_timeout ⟨7, false, false, false, [⟨12, 4, none⟩], 0⟩
        ⟨[5, 7]⟩ 12).2.timeout_tasks :=
  ⟨(task_remove_timeout_erases_and_deregisters_when_empty ⟨7, false, false, false,
      [⟨11, 3, none⟩, ⟨12, 4, some exception_ptr.deadline_reached⟩, ⟨13, 9, none⟩], 0⟩
      ⟨[5, 7]⟩ 12 (by decide)).2.1,
    (task_remove_timeout_erases_and_deregisters_when_empty ⟨7, false, false, false,
      [⟨11, 3, none⟩, ⟨12, 4, some exception_ptr.deadline_reached⟩, ⟨13, 9, none⟩], 0⟩
      ⟨[5, 7]⟩ 12 (by decide)).2.2.2.2.2.1 (by decide),
    ((task_remove_timeout_erases_and_deregisters_when_empty ⟨7, false, false, false,
      [⟨12, 4, none⟩], 0⟩ ⟨[5, 7]⟩ 12 (by decide)).2.2.2.2.1 (by decide)).2⟩

end ten

namespace ten

/-! ## Run queue: wake-up of the owning scheduler -/

/-- C12 fails as stated: task 3 belongs to proc 1 and is already in its run queue; `ready`
is called from proc 0.  The task is not exiting and its scheduler is not the caller's, yet
the call changes nothing and proc 1 is not woken. -/
theorem task_ready_queued_task_no_wake_counterexample :
    (⟨3, false, false, false, [], 1⟩ : task).exiting = false ∧
    (⟨3, false, false, false, [], 1⟩ : task).cproc ≠ 0 ∧
    task.ready ⟨3, false, false, false, [], 1⟩ 0 ⟨1, [3], 0⟩ = ⟨1, [3], 0⟩ ∧
    (task.ready ⟨3, false, false, false, [], 1⟩ 0 ⟨1, [3], 0⟩).wakeups = 0 := by
  decide

/-- C12 (amended): `ready` on a non-exiting task, `p` being its owning scheduler.  The task
is in the run queue afterwards.  If the owning scheduler is not the caller's and the task was
not yet queued, that scheduler is woken once by the call; if the task was already queued the
call is a no-op and nobody is woken; and if the owning scheduler is the caller's own, no wake
is issued. -/
theorem task_ready_wakes_other_proc_on_append (t : task) (this_proc : Nat) (p : proc)
    (hx : t.exiting = false) (hp : p.addr = t.cproc) :
    t.addr ∈ (t.ready this_proc p).runqueue ∧
    (t.cproc ≠ this_proc → t.addr ∉ p.runqueue →
      (t.ready this_proc p).wakeups = p.wakeups + 1) ∧
    (t.addr ∈ p.runqueue → t.ready this_proc p = p) ∧
    (t.cproc = this_proc → (t.ready this_proc p).wakeups = p.wakeups) := by
  refine ⟨?_, ?_, ready_runqueue_of_mem t this_proc p, ?_⟩
  · rw [ready_runqueue_eq t this_proc p hx]
    split
    · assumption
    · simp
  · intro hne hm
    have hpa : p.addr ≠ this_proc := by rw [hp]; exact hne
    simp [task.ready, hx, hm, hpa, proc.wakeupandunlock]
  · intro he
    have hpa : p.addr = this_proc := by rw [hp]; exact he
    by_cases hm : t.addr ∈ p.runqueue
    · rw [ready_runqueue_of_mem t this_proc p hm]
    · simp [task.ready, hx, hm, hpa]

theorem task_ready_wakes_other_proc_on_append_witness :
    3 ∈ (task.ready ⟨3, false, false, false, [], 1⟩ 0 ⟨1, [4], 0⟩).runqueue ∧
    (task.ready ⟨3, false, false, false, [], 1⟩ 0 ⟨1, [4], 0⟩).wakeups = 0 + 1 :=
  ⟨(task_ready_wakes_other_proc_on_append ⟨3, false, false, false, [], 1⟩ 0 ⟨1, [4], 0⟩
      rfl rfl).1,
    (task_ready_wakes_other_proc_on_append ⟨3, false, false, false, [], 1⟩ 0 ⟨1, [4], 0⟩
      rfl rfl).2.1 (by decide) (by decide)⟩

end ten

namespace ten

/-! ## Accept loop: backoff -/

theorem accept_loop_turn_of_exhausted {B : Type} (next_delay : B → Nat × B) (bo : B)
    (a : accept_turn) (h : a.exhausted = true) :
    ∃ c, accept_loop_turn next_delay bo a =
      (⟨c, loop_action.sleep_for (next_delay bo).1⟩, (next_delay bo).2) := by
  obtain ⟨fd, errno, spawn⟩ := a
  unfold accept_turn.exhausted at h
  unfold accept_loop_turn
  by_cases h1 : fd = -1
  · simp only [h1, if_true] at h ⊢
    cases errno <;> first | exact ⟨_, rfl⟩ | simp at h
  · by_cases h2 : fd ≤ 2
    · simp [h1, h2] at h
    · simp only [h1, h2, if_false] at h ⊢
      cases spawn <;> first | exact ⟨_, rfl⟩ | simp at h

theorem accept_loop_turn_of_quiet {B : Type} (next_delay : B → Nat × B) (bo : B)
    (a : accept_turn) (h : a.exhausted = false) (ht : a.throws = false) :
    accept_loop_turn next_delay bo a = (⟨none, loop_action.yield⟩, bo) := by
  obtain ⟨fd, errno, spawn⟩ := a
  unfold accept_turn.exhausted at h
  unfold accept_turn.throws at ht
  unfold accept_loop_turn
  by_cases h1 : fd = -1
  · simp only [h1, if_true] at h ⊢
    cases errno <;> first | rfl | simp at h
  · by_cases h2 : fd ≤ 2
    · simp [h1, h2] at ht
    · simp only [h1, h2, if_false] at h ht ⊢
      cases spawn <;> first | rfl | (exfalso; revert ht; decide) | (exfalso; revert h; decide)

theorem accept_loop_sleeps {B : Type} (next_delay : B → Nat × B) (run : List accept_turn) :
    ∀ bo : B, (∀ a ∈ run, a.throws = false) →
      sleeps (accept_loop_from next_delay bo run) =
        backoff_delays next_delay bo (run.countP fun a => a.exhausted) := by
  induction run with
  | nil => intro bo _; rfl
  | cons a rest ih =>
    intro bo hno
    have ha : a.throws = false := hno a (List.mem_cons_self _ _)
    have hrest : ∀ x ∈ rest, x.throws = false := fun x hx => hno x (List.mem_cons_of_mem _ hx)
    by_cases he : a.exhausted = true
    · obtain ⟨c, hc⟩ := accept_loop_turn_of_exhausted next_delay bo a he
      rw [List.countP_cons_of_pos _ _ he]
      simp only [accept_loop_from, hc, sleeps, backoff_delays]
      rw [ih _ hrest]
    · have he2 : a.exhausted = false := by simpa using he
      rw [List.countP_cons_of_neg _ _ he]
      simp only [accept_loop_from, accept_loop_turn_of_quiet next_delay bo a he2 ha, sleeps]
      exact ih _ hrest

theorem backoff_delays_exponential (mn mx : Nat) (k : Nat) :
    ∀ n, backoff_delays backoff.next_delay ⟨mn, mx, n⟩ k =
      (List.range k).map fun i => min mx (mn * 2 ^ (n + i)) := by
  induction k with
  | zero => intro n; rfl
  | succ k ih =>
    intro n
    rw [List.range_succ_eq_map]
    simp only [backoff_delays, backoff.next_delay, ih (n + 1), List.map_cons, List.map_map,
      Nat.add_zero]
    congr 1
    apply List.map_congr_left
    intro i _
    simp only [Function.comp_apply]
    congr 3
    omega

/-- C13 fails as stated: `accept` fails with `EMFILE`, then a connection is accepted and its
client task spawned, then `accept` fails with `EMFILE` again.  The loop sleeps 100 ms at the
first failure and 200 ms, not 100 ms, at the one after the success. -/
theorem accept_loop_no_reset_after_success_counterexample :
    netsock_server.accept_loop
        [⟨-1, accept_errno.EMFILE, spawn_result.spawned⟩,
          ⟨5, accept_errno.other 0, spawn_result.spawned⟩,
          ⟨-1, accept_errno.EMFILE, spawn_result.spawned⟩] =
      [⟨none, loop_action.sleep_for 100⟩, ⟨none, loop_action.yield⟩,
        ⟨none, loop_action.sleep_for 200⟩] ∧
    (200 : Nat) ≠ 100 := by
  decide

/-- C13 (amended): the accept loop makes its backoff object once, before the loop, and never
resets it.  In a run in which no turn throws, the sleeps are the first delays of that one
backoff sequence, as many as there are resource-exhaustion failures: turns that accept and
spawn (or fail otherwise) in between change none of them.  With the backoff of the spec, the
failure number `i` (from 0) sleeps `min 500 (100 * 2 ^ i)` ms wherever the successes lie. -/
theorem accept_loop_backoff_continues_across_successes {B : Type} (next_delay : B → Nat × B)
    (bo : B) (run : List accept_turn) (hno : ∀ a ∈ run, a.throws = false) :
    sleeps (accept_loop_from next_delay bo run) =
      backoff_delays next_delay bo (run.countP fun a => a.exhausted) ∧
    sleeps (accept_loop_from next_delay bo run) =
      sleeps (accept_loop_from next_delay bo (run.filter fun a => a.exhausted)) ∧
    sleeps (netsock_server.accept_loop run) =
      (List.range (run.countP fun a => a.exhausted)).map fun i => min 500 (100 * 2 ^ i) := by
  refine ⟨accept_loop_sleeps next_delay run bo hno, ?_, ?_⟩
  · rw [accept_loop_sleeps next_delay run bo hno,
      accept_loop_sleeps next_delay _ bo (fun a ha => hno a (List.mem_filter.mp ha).1)]
    congr 1
    rw [List.countP_filter]
    simp
  · unfold netsock_server.accept_loop make_backoff
    rw [accept_loop_sleeps backoff.next_delay run _ hno, backoff_delays_exponential]
    simp

theorem accept_loop_backoff_continues_across_successes_witness :
    sleeps (netsock_server.accept_loop
        [⟨-1, accept_errno.ENOMEM, spawn_result.spawned⟩,
          ⟨5, accept_errno.other 0, spawn_result.spawned⟩,
          ⟨6, accept_errno.other 0, spawn_result.bad_alloc⟩]) =
      (List.range (List.countP (fun a => a.exhausted)
        [(⟨-1, accept_errno.ENOMEM, spawn_result.spawned⟩ : accept_turn),
          ⟨5, accept_errno.other 0, spawn_result.spawned⟩,
          ⟨6, accept_errno.other 0, spawn_result.bad_alloc⟩])).map
        fun i => min 500 (100 * 2 ^ i) :=
  (accept_loop_backoff_continues_across_successes backoff.next_delay (make_backoff 100 500)
    [⟨-1, accept_errno.ENOMEM, spawn_result.spawned⟩,
      ⟨5, accept_errno.other 0, spawn_result.spawned⟩,
      ⟨6, accept_errno.other 0, spawn_result.bad_alloc⟩] (by decide)).2.2

end ten

namespace ten

/-! ## Qutex: the invariant -/

theorem internal_unlock_inv (q : qutex) (t : Nat) (hinv : q.inv) :
    (q.internal_unlock t).1.inv := by
  obtain ⟨owner, waiting⟩ := q
  obtain ⟨h1, h2, h3⟩ := hinv
  simp only at h1 h2 h3
  unfold qutex.internal_unlock
  by_cases ho : owner = some t
  · simp only [ho, if_true]
    cases waiting with
    | nil => exact ⟨fun _ => rfl, fun o h => (by cases h), List.nodup_nil⟩
    | cons c cs =>
      have hc := List.nodup_cons.mp h3
      refine ⟨fun h => (by cases h), ?_, hc.2⟩
      intro o hoc
      simp only [Option.some.injEq] at hoc
      subst hoc
      exact hc.1
  · simp only [ho, if_false]
    refine ⟨?_, ?_, h3.erase t⟩
    · intro hn
      simp only at hn
      simp [h1 hn]
    · intro o hoo hm
      exact h2 o hoo (List.mem_of_mem_erase hm)

/-- C15: the predicate `inv` (a null owner implies an empty `waiting`, the owner is not in
`waiting`, `waiting` holds no task twice) holds in the initial state, and from a state where
it holds it holds again after `lock()` by a task not already in `waiting`, after
`try_lock()` whatever the thread mutex does, after `unlock()`, and after the resumption of
a waiting `lock()`, normal or aborted, for every calling task `t`. -/
theorem qutex_invariant_preserved (q : qutex) (t : Nat) (hinv : q.inv) :
    qutex.inv ⟨none, []⟩ ∧
    (t ∉ q.waiting → (q.lock_enter t).1.inv) ∧
    (∀ owns_lock, (q.try_lock t owns_lock).q.inv) ∧
    (q.unlock t).1.inv ∧
    (∀ (W : Type) (w : W) (f : failure), (qutex.lock_resume q w t (some f)).q.inv) ∧
    (∀ (W : Type) (w : W), (qutex.lock_resume q w t none).q = q) := by
  refine ⟨⟨fun _ => rfl, fun o h => (by cases h), List.nodup_nil⟩, ?_, ?_,
    internal_unlock_inv q t hinv, ?_, ?_⟩
  · intro ht
    obtain ⟨h1, h2, h3⟩ := hinv
    unfold qutex.lock_enter
    by_cases hq : q.owner = none ∨ q.owner = some t
    · rw [if_pos hq]
      refine ⟨fun h => (by cases h), ?_, h3⟩
      intro o ho
      simp only [Option.some.injEq] at ho
      subst ho
      exact ht
    · rw [if_neg hq]
      have hne : q.owner ≠ none := fun h => hq (Or.inl h)
      have hnt : q.owner ≠ some t := fun h => hq (Or.inr h)
      refine ⟨fun h => absurd h hne, ?_, ?_⟩
      · intro o ho hm
        simp only at ho hm
        rcases List.mem_append.mp hm with hm | hm
        · exact h2 o ho hm
        · have : o = t := by simpa using hm
          exact hnt (by rw [ho, this])
      · exact List.Nodup.append h3 (List.nodup_singleton _) (by simpa using ht)
  · intro b
    obtain ⟨h1, h2, h3⟩ := hinv
    unfold qutex.try_lock
    by_cases hb : b = true
    · by_cases ho : q.owner = none
      · simp only [hb, ho, if_true]
        refine ⟨fun h => (by cases h), ?_, h3⟩
        intro o _
        simp [h1 ho]
      · simp only [hb, ho, if_true, if_false]
        exact ⟨h1, h2, h3⟩
    · simp only [hb, if_false]
      exact ⟨h1, h2, h3⟩
  · intro W w f
    exact internal_unlock_inv q t hinv
  · intro W w
    unfold qutex.lock_resume
    simp only
    split <;> rfl

theorem qutex_invariant_preserved_witness :
    (qutex.lock_enter ⟨some 1, [2, 3]⟩ 4).1.inv ∧ (qutex.unlock ⟨some 1, [2, 3]⟩ 1).1.inv :=
  ⟨(qutex_invariant_preserved ⟨some 1, [2, 3]⟩ 4
      ⟨by decide, by decide, by decide⟩).2.1 (by decide),
    (qutex_invariant_preserved ⟨some 1, [2, 3]⟩ 1
      ⟨by decide, by decide, by decide⟩).2.2.2.1⟩

end ten

namespace legacy

/-! ## Flag words -/

theorem lor_land_self (a m : Nat) : (a ||| m) &&& m = m := by
  apply Nat.eq_of_testBit_eq
  intro i
  rw [Nat.testBit_land, Nat.testBit_lor]
  cases a.testBit i <;> cases m.testBit i <;> rfl

theorem xor_land_of_clear (a m : Nat) (h : a &&& m = 0) : (a ^^^ m) &&& m = m := by
  apply Nat.eq_of_testBit_eq
  intro i
  have hi : (a &&& m).testBit i = false := by rw [h]; exact Nat.zero_testBit i
  rw [Nat.testBit_land] at hi
  rw [Nat.testBit_land, Nat.testBit_xor]
  revert hi
  cases a.testBit i <;> cases m.testBit i <;> simp

theorem xor_land_of_set (a m : Nat) (h : a &&& m = m) : (a ^^^ m) &&& m = 0 := by
  apply Nat.eq_of_testBit_eq
  intro i
  have hi : (a &&& m).testBit i = m.testBit i := by rw [h]
  rw [Nat.testBit_land] at hi
  rw [Nat.testBit_land, Nat.testBit_xor, Nat.zero_testBit]
  revert hi
  cases a.testBit i <;> cases m.testBit i <;> simp

/-! ## `task::start` -/

/-- C14: the wrapper `task::start`.  If the body returns or throws channel-closed, the
process is not aborted, the `_TASK_EXIT` bits are set in the task's flags and the wrapper
ends in `swap_to_scheduler`.  If the body fails in any other way, the process is aborted
(by `abort()` in the handler, or by `std::terminate` for an exception no handler catches) and
the task is not flagged. -/
theorem task_start_aborts_unless_returned_or_channel_closed (t : task) (body : body_outcome)
    (exit_mask : Nat) :
    ((body = body_outcome.returned ∨ body = body_outcome.channel_closed_error) →
      (t.start body exit_mask).2 = start_end.swap_to_scheduler ∧
      (t.start body exit_mask).2.process_aborted = false ∧
      (t.start body exit_mask).1.flags = t.flags ||| exit_mask ∧
      (t.start body exit_mask).1.flags &&& exit_mask = exit_mask) ∧
    (body ≠ body_outcome.returned → body ≠ body_outcome.channel_closed_error →
      (t.start body exit_mask).2.process_aborted = true ∧
      (t.start body exit_mask).2 ≠ start_end.swap_to_scheduler ∧
      (t.start body exit_mask).1 = t) := by
  cases body with
  | returned =>
    exact ⟨fun _ => ⟨rfl, rfl, rfl, lor_land_self _ _⟩, fun h => absurd rfl h⟩
  | channel_closed_error =>
    exact ⟨fun _ => ⟨rfl, rfl, rfl, lor_land_self _ _⟩, fun _ h => absurd rfl h⟩
  | std_exception =>
    refine ⟨fun h => ?_, fun _ _ => ⟨rfl, by simp [task.start], rfl⟩⟩
    rcases h with h | h <;> cases h
  | other_exception =>
    refine ⟨fun h => ?_, fun _ _ => ⟨rfl, by simp [task.start], rfl⟩⟩
    rcases h with h | h <;> cases h

theorem task_start_aborts_unless_returned_or_channel_closed_witness :
    (task.start ⟨1, 2⟩ body_outcome.channel_closed_error 4).2 = start_end.swap_to_scheduler ∧
    (task.start ⟨1, 2⟩ body_outcome.channel_closed_error 4).1.flags = 2 ||| 4 ∧
    (task.start ⟨1, 2⟩ body_outcome.std_exception 4).2.process_aborted = true :=
  ⟨((task_start_aborts_unless_returned_or_channel_closed ⟨1, 2⟩
      body_outcome.channel_closed_error 4).1 (Or.inr rfl)).1,
    ((task_start_aborts_unless_returned_or_channel_closed ⟨1, 2⟩
      body_outcome.channel_closed_error 4).1 (Or.inr rfl)).2.2.1,
    ((task_start_aborts_unless_returned_or_channel_closed ⟨1, 2⟩
      body_outcome.std_exception 4).2 (by decide) (by decide)).1⟩

/-! ## `runner::add_to_runqueue_if_asleep` -/

theorem add_to_runqueue_if_asleep_of_asleep (r : runner) (t : task) (sleep_mask : Nat)
    (h : r.asleep = true) :
    r.add_to_runqueue_if_asleep t sleep_mask =
      (true, ⟨false, r.runq ++ [t.id], r.signals + 1⟩, ⟨t.id, t.flags ^^^ sleep_mask⟩) := by
  simp [runner.add_to_runqueue_if_asleep, runner.wakeup_nolock, task.clear_flag, h]

/-- On a sleeping runner the call returns true, appends the task at the tail of the run
queue and leaves the runner awake; a task whose `_TASK_SLEEP` bits were set has them clear
afterwards; on a runner that is not asleep the call returns false and changes nothing. -/
theorem add_to_runqueue_if_asleep_spec (r : runner) (t : task) (sleep_mask : Nat) :
    (r.asleep = true →
      (r.add_to_runqueue_if_asleep t sleep_mask).1 = true ∧
      (r.add_to_runqueue_if_asleep t sleep_mask).2.1.runq = r.runq ++ [t.id] ∧
      (r.add_to_runqueue_if_asleep t sleep_mask).2.1.asleep = false ∧
      (t.flags &&& sleep_mask = sleep_mask →
        (r.add_to_runqueue_if_asleep t sleep_mask).2.2.test_flag_set sleep_mask = false)) ∧
    (r.asleep = false → r.add_to_runqueue_if_asleep t sleep_mask = (false, r, t)) := by
  constructor
  · intro h
    rw [add_to_runqueue_if_asleep_of_asleep r t sleep_mask h]
    refine ⟨rfl, rfl, rfl, ?_⟩
    intro hset
    simp [task.test_flag_set, xor_land_of_set _ _ hset]
  · intro h
    simp [runner.add_to_runqueue_if_asleep, h]

/-- C16, where the code departs from it: on a sleeping runner, for a task whose `_TASK_SLEEP`
bits are not set, `clear_flag` (an exclusive or) sets them: the call returns true, appends
the task and wakes the runner, but `test_flag_set(_TASK_SLEEP)` is true afterwards. -/
theorem add_to_runqueue_if_asleep_sets_clear_sleep_flag (r : runner) (t : task)
    (sleep_mask : Nat) (hasleep : r.asleep = true) (hmask : sleep_mask ≠ 0)
    (hclear : t.test_flag_set sleep_mask = false) :
    (r.add_to_runqueue_if_asleep t sleep_mask).1 = true ∧
    (r.add_to_runqueue_if_asleep t sleep_mask).2.1.runq = r.runq ++ [t.id] ∧
    (r.add_to_runqueue_if_asleep t sleep_mask).2.1.asleep = false ∧
    (r.add_to_runqueue_if_asleep t sleep_mask).2.2.flags &&& sleep_mask = sleep_mask ∧
    (r.add_to_runqueue_if_asleep t sleep_mask).2.2.test_flag_set sleep_mask = true := by
  have h0 : t.flags &&& sleep_mask = 0 := by
    simpa [task.test_flag_set] using hclear
  rw [add_to_runqueue_if_asleep_of_asleep r t sleep_mask hasleep]
  refine ⟨rfl, rfl, rfl, xor_land_of_clear _ _ h0, ?_⟩
  simp [task.test_flag_set, xor_land_of_clear _ _ h0, hmask]

theorem add_to_runqueue_if_asleep_sets_clear_sleep_flag_witness :
    (runner.add_to_runqueue_if_asleep ⟨true, [4], 0⟩ ⟨9, 0⟩ 1).2.2.test_flag_set 1 = true :=
  (add_to_runqueue_if_asleep_sets_clear_sleep_flag ⟨true, [4], 0⟩ ⟨9, 0⟩ 1 rfl (by decide)
    (by decide)).2.2.2.2

end legacy
